import Mathlib

/-!
Shallow embedding of the denial-management dashboard's data pipeline
(`src/denialmanagementapp.py`): schema validation and date normalization
(`load_data`), the region/specialty/date filter block (`filtered_df`),
the KPI totals, the monthly denial trend (`pd.Grouper(freq="M")`),
the top-denial-reasons aggregate (`denial_summary`), and the CSV export
/ re-import round trip (`download_button` / `pd.read_csv`).

Cell values are modelled by an inductive `Value`: a string, an exact
integer (the pipeline's numeric cells; pandas floats are modelled as
exact integers since no claim depends on fractional behaviour), a
calendar date, or the missing marker (pandas `NaN`/`NaT`).
-/

namespace DenialApp

/-- A calendar date, as pandas `Timestamp` normalized to a day. -/
structure Date where
  year : Nat
  month : Nat
  day : Nat
deriving DecidableEq

/-- A scalar cell value of the tabular dataset. -/
inductive Value where
  | str (s : String)
  | num (n : Int)
  | date (d : Date)
  | missing
deriving DecidableEq

/-- Chronological (lexicographic year/month/day) order on dates,
as pandas timestamp comparison. -/
def Date.le (a b : Date) : Prop :=
  a.year < b.year ∨ (a.year = b.year ∧
    (a.month < b.month ∨ (a.month = b.month ∧ a.day ≤ b.day)))

instance : LE Date := ⟨Date.le⟩

instance (a b : Date) : Decidable (a ≤ b) :=
  inferInstanceAs (Decidable (a.year < b.year ∨ (a.year = b.year ∧
    (a.month < b.month ∨ (a.month = b.month ∧ a.day ≤ b.day)))))

/-- Strict chronological order on dates. -/
def Date.lt (a b : Date) : Prop :=
  a.year < b.year ∨ (a.year = b.year ∧
    (a.month < b.month ∨ (a.month = b.month ∧ a.day < b.day)))

instance : LT Date := ⟨Date.lt⟩

instance (a b : Date) : Decidable (a < b) :=
  inferInstanceAs (Decidable (a.year < b.year ∨ (a.year = b.year ∧
    (a.month < b.month ∨ (a.month = b.month ∧ a.day < b.day)))))

/-- Gregorian leap-year rule (used for month-end labels). -/
def isLeapYear (y : Nat) : Bool :=
  (y % 4 == 0 && y % 100 != 0) || (y % 400 == 0)

/-- Number of days in a calendar month. -/
def daysInMonth (y m : Nat) : Nat :=
  if m = 2 then (if isLeapYear y then 29 else 28)
  else if m = 4 ∨ m = 6 ∨ m = 9 ∨ m = 11 then 30
  else 31

/- ### Decimal digits, numbers and ISO dates as character strings -/

/-- The decimal digit character for a value below ten. -/
def digitChar (k : Nat) : Char :=
  match k with
  | 0 => '0' | 1 => '1' | 2 => '2' | 3 => '3' | 4 => '4'
  | 5 => '5' | 6 => '6' | 7 => '7' | 8 => '8' | _ => '9'

/-- Whether a character is a decimal digit. -/
def isDigitChar (c : Char) : Bool := 48 ≤ c.toNat && c.toNat ≤ 57

/-- Numeric value of a digit character. -/
def digitVal (c : Char) : Nat := c.toNat - 48

/-- Fueled worker for `natDigits`; any fuel above the number suffices. -/
def natDigitsAux : Nat → Nat → List Char
  | 0, _ => []
  | fuel + 1, n =>
    if n < 10 then [digitChar n]
    else natDigitsAux fuel (n / 10) ++ [digitChar (n % 10)]

/-- Decimal digit characters of a natural number, most significant first. -/
def natDigits (n : Nat) : List Char := natDigitsAux (n + 1) n

/-- Any two sufficient fuels give `natDigitsAux` the same value. -/
theorem natDigitsAux_congr : ∀ fuel fuel' n, n < fuel → n < fuel' →
    natDigitsAux fuel n = natDigitsAux fuel' n := by
  intro fuel
  induction fuel with
  | zero => intro fuel' n h _; omega
  | succ f ih =>
    intro fuel' n h h'
    cases fuel' with
    | zero => omega
    | succ f' =>
      show (if n < 10 then [digitChar n] else natDigitsAux f (n / 10) ++ [digitChar (n % 10)])
        = (if n < 10 then [digitChar n] else natDigitsAux f' (n / 10) ++ [digitChar (n % 10)])
      by_cases h10 : n < 10
      · rw [if_pos h10, if_pos h10]
      · rw [if_neg h10, if_neg h10]
        have hdiv : n / 10 < n := Nat.div_lt_self (by omega) (by omega)
        rw [ih f' (n / 10) (by omega) (by omega)]

/-- Unfolding equation for `natDigits`. -/
theorem natDigits_eq (n : Nat) :
    natDigits n = if n < 10 then [digitChar n]
      else natDigits (n / 10) ++ [digitChar (n % 10)] := by
  show (if n < 10 then [digitChar n] else natDigitsAux n (n / 10) ++ [digitChar (n % 10)]) = _
  by_cases h10 : n < 10
  · rw [if_pos h10, if_pos h10]
  · rw [if_neg h10, if_neg h10]
    have hdiv : n / 10 < n := Nat.div_lt_self (by omega) (by omega)
    rw [natDigitsAux_congr n (n / 10 + 1) (n / 10) (by omega) (by omega)]
    rfl

/-- Value of a list of digit characters (reads left to right). -/
def digitsVal (cs : List Char) : Nat :=
  cs.foldl (fun acc c => acc * 10 + digitVal c) 0

/-- Digit characters of `n` left-padded with zeros to width `w`. -/
def padNat (w n : Nat) : List Char :=
  List.replicate (w - (natDigits n).length) '0' ++ natDigits n

/-- Parse a (possibly zero-padded) run of decimal digits. -/
def parseNatL (cs : List Char) : Option Nat :=
  if !cs.isEmpty && cs.all isDigitChar then some (digitsVal cs) else none

/-- Parse an optionally negated run of decimal digits, the numeric
inference `pd.read_csv` applies to a column cell. -/
def parseIntL (cs : List Char) : Option Int :=
  match cs with
  | [] => none
  | c :: rest =>
    if c = '-' then
      match parseNatL rest with
      | some n => some (-(n : Int))
      | none => none
    else
      match parseNatL (c :: rest) with
      | some n => some ((n : Int))
      | none => none

/-- Decimal rendering of an integer. -/
def printIntL (n : Int) : List Char :=
  if n < 0 then '-' :: natDigits n.natAbs else natDigits n.natAbs

/-- Split a character list on a separator character. -/
def splitOnChar (sep : Char) : List Char → List (List Char)
  | [] => [[]]
  | c :: cs =>
    let r := splitOnChar sep cs
    if c = sep then [] :: r
    else
      match r with
      | [] => [[c]]
      | g :: gs => (c :: g) :: gs

/-- ISO rendering `YYYY-MM-DD` of a date. -/
def printDate (d : Date) : List Char :=
  padNat 4 d.year ++ '-' :: (padNat 2 d.month ++ '-' :: padNat 2 d.day)

/-- The ISO calendar-date parser modelling `pd.to_datetime` on the
`claim_date` column: `YYYY-MM-DD` with a real month and day. -/
def parseDate (cs : List Char) : Option Date :=
  match splitOnChar '-' cs with
  | [ys, ms, ds] =>
    match parseNatL ys, parseNatL ms, parseNatL ds with
    | some y, some m, some d =>
      if 1 ≤ m ∧ m ≤ 12 ∧ 1 ≤ d ∧ d ≤ daysInMonth y m then some ⟨y, m, d⟩ else none
    | _, _, _ => none
  | _ => none

/-- `pd.to_datetime(value, errors="coerce")` on one cell: a parsable
string becomes a date, an already-coerced date stays, anything else
(missing, unparsable, non-string) becomes the missing marker `NaT`. -/
def normDate (v : Value) : Value :=
  match v with
  | .str s => match parseDate s.data with
    | some d => .date d
    | none => .missing
  | .date d => .date d
  | _ => .missing

/- ### Raw uploaded tables and `load_data` -/

/-- The fixed required-column list `EXPECTED_COLUMNS` of the source. -/
def EXPECTED_COLUMNS : List String :=
  ["ICD10_Code", "CPT_Code", "claim_date", "Patient_Age", "Gender", "Region",
   "Provider_Specialty", "Hospital_Type", "Claim_Status", "Claimed_Amount",
   "Approved_Amount", "Denied_amount", "Denial_reason"]

/-- A raw parsed table: named columns and rows of cells aligned with the
column list (the shape `pd.read_csv` hands to validation). -/
structure RawTable where
  cols : List String
  rows : List (List Value)
deriving DecidableEq

instance {ε α : Type} [DecidableEq ε] [DecidableEq α] : DecidableEq (Except ε α) := fun a b =>
  match a, b with
  | .ok x, .ok y =>
    if h : x = y then .isTrue (h ▸ rfl) else .isFalse (fun hc => h (by injection hc))
  | .error x, .error y =>
    if h : x = y then .isTrue (h ▸ rfl) else .isFalse (fun hc => h (by injection hc))
  | .ok _, .error _ => .isFalse (fun hc => Except.noConfusion hc)
  | .error _, .ok _ => .isFalse (fun hc => Except.noConfusion hc)

/-- Every row has one cell per column. -/
def WellFormed (t : RawTable) : Prop :=
  ∀ row ∈ t.rows, row.length = t.cols.length

/-- `df["claim_date"] = pd.to_datetime(df["claim_date"], errors="coerce")`
applied to one row: the cells under the `claim_date` column are coerced,
every other cell is untouched. -/
def normalizeRow (cols : List String) (row : List Value) : List Value :=
  (cols.zip row).map (fun p => if p.1 = "claim_date" then normDate p.2 else p.2)

/-- `load_data`: compute the expected columns absent from the table,
raise an error naming exactly them if any, otherwise coerce the
`claim_date` column and return the table. -/
def load_data (t : RawTable) : Except (List String) RawTable :=
  let missing_cols := EXPECTED_COLUMNS.filter (fun c => !t.cols.contains c)
  if missing_cols.isEmpty then
    if t.cols.contains "claim_date" then
      .ok ⟨t.cols, t.rows.map (normalizeRow t.cols)⟩
    else .ok t
  else .error missing_cols

/-- The cell of table `t` at row `i`, column position `j`. -/
def cellAt (t : RawTable) (i j : Nat) : Option Value :=
  (t.rows[i]?).bind (fun row => row[j]?)

/-- One record of the claims dataset: the 13 required columns.
Extra uploaded columns are ignored by every pipeline stage, so they are
not modelled at the record level. -/
structure Row where
  ICD10_Code : Value
  CPT_Code : Value
  claim_date : Value
  Patient_Age : Value
  Gender : Value
  Region : Value
  Provider_Specialty : Value
  Hospital_Type : Value
  Claim_Status : Value
  Claimed_Amount : Value
  Approved_Amount : Value
  Denied_amount : Value
  Denial_reason : Value
deriving DecidableEq

/-- The sidebar filter selection: multiselected regions and specialties
and the optional date range (`selected_region`, `selected_specialty`,
`selected_date` in the source). -/
structure Selection where
  regions : List String
  specialties : List String
  dateRange : Option (Date × Date)

/-- `series.isin(values)`: a cell matches a list of selected labels.
A missing cell is never a member of a list of string labels. -/
def valueMem (v : Value) (labels : List String) : Bool :=
  labels.any (fun s => decide (v = .str s))

/-- `series.between(start, end)` on the coerced `claim_date` column:
inclusive on both ends; `NaT` (missing) compares false. -/
def betweenDate (v : Value) (s e : Date) : Bool :=
  match v with
  | .date d => decide (s ≤ d) && decide (d ≤ e)
  | _ => false

/-- The filter block of the source: start from a copy of the dataset,
then `if selected_region: ... isin ...`, `if selected_specialty: ...`,
`if selected_date: ... between ...` — an empty multiselection (falsy
list) skips its predicate entirely. -/
def filtered_df (df : List Row) (sel : Selection) : List Row :=
  let d1 := if sel.regions.isEmpty then df
            else df.filter (fun r => valueMem r.Region sel.regions)
  let d2 := if sel.specialties.isEmpty then d1
            else d1.filter (fun r => valueMem r.Provider_Specialty sel.specialties)
  match sel.dateRange with
  | none => d2
  | some (s, e) => d2.filter (fun r => betweenDate r.claim_date s e)

/-- Whether a cell holds a numeric value. -/
def isNum (v : Value) : Bool :=
  match v with
  | .num _ => true
  | _ => false

/-- Numeric reading of a cell for pandas column sums: a missing value
is skipped, i.e. contributes 0. -/
def numVal (v : Value) : Int :=
  match v with
  | .num n => n
  | _ => 0

/-- KPI `total_claims = len(filtered_df)`. -/
def total_claims (df : List Row) : Nat := df.length

/-- KPI `total_claimed = filtered_df["Claimed_Amount"].sum()`. -/
def total_claimed (df : List Row) : Int :=
  (df.map (fun r => numVal r.Claimed_Amount)).sum

/-- KPI `total_approved = filtered_df["Approved_Amount"].sum()`. -/
def total_approved (df : List Row) : Int :=
  (df.map (fun r => numVal r.Approved_Amount)).sum

/-- KPI `total_denied = filtered_df["Denied_amount"].sum()`. -/
def total_denied (df : List Row) : Int :=
  (df.map (fun r => numVal r.Denied_amount)).sum

/- ### The monthly denial trend (`pd.Grouper(key="claim_date", freq="M")`) -/

/-- A date that denotes a real calendar day (as every pandas
`Timestamp` does). -/
def DateOk (d : Date) : Prop :=
  1 ≤ d.month ∧ d.month ≤ 12 ∧ 1 ≤ d.day ∧ d.day ≤ daysInMonth d.year d.month

instance (d : Date) : Decidable (DateOk d) :=
  inferInstanceAs (Decidable (_ ∧ _ ∧ _ ∧ _))

/-- The date held by a cell, if any. -/
def validDate (v : Value) : Option Date :=
  match v with
  | .date d => some d
  | _ => none

/-- Linear month index of a date (months since year 0). -/
def monthIdx (d : Date) : Nat := d.year * 12 + (d.month - 1)

/-- The month-end date labeling the bin of linear month index `i` —
`freq="M"` bins are labeled by the last day of the month. -/
def idxMonthEnd (i : Nat) : Date :=
  ⟨i / 12, i % 12 + 1, daysInMonth (i / 12) (i % 12 + 1)⟩

/-- The month bin a row falls into: the month of its `claim_date`, none
for a missing date (`NaT` rows are dropped by the grouper). -/
def rowMonth (r : Row) : Option Nat := (validDate r.claim_date).map monthIdx

/-- `["Denied_amount"].sum()` over a set of rows. -/
def sumDenied (df : List Row) : Int :=
  (df.map (fun r => numVal r.Denied_amount)).sum

/-- The monthly denial trend: group rows into month bins spanning the
months of the earliest to the latest valid `claim_date` (the grouper
emits every bin in that span, empty ones summing to 0), each bin labeled
by its month-end date and holding the sum of `Denied_amount` over its
rows; rows with a missing date belong to no bin. The result is ascending
by construction, so the source's final `sort_values("claim_date")` is
the identity on it. -/
def trend (df : List Row) : List (Date × Int) :=
  match df.filterMap rowMonth with
  | [] => []
  | i :: is =>
    let lo := is.foldl min i
    let hi := is.foldl max i
    (List.range (hi + 1 - lo)).map (fun k =>
      (idxMonthEnd (lo + k),
       sumDenied (df.filter (fun r => decide (rowMonth r = some (lo + k))))))

/- ### Grouping, sorting and the top-denial-reasons aggregate -/

/-- `fillna("Unknown")` on one cell. -/
def fillUnknown (v : Value) : Value :=
  match v with
  | .missing => .str "Unknown"
  | _ => v

/-- `filtered_df["Denial_reason"].fillna("Unknown", inplace=True)`: the
in-place fill rewrites the `Denial_reason` column of the filtered
dataset itself, leaving every other column untouched. -/
def fillnaReason (df : List Row) : List Row :=
  df.map (fun r => { r with Denial_reason := fillUnknown r.Denial_reason })

/-- Distinct values of a list, keeping first occurrences in order
(pandas `unique`). -/
def firstDedup : List Value → List Value
  | [] => []
  | v :: vs => v :: firstDedup (vs.filter (fun x => !decide (x = v)))
termination_by l => l.length
decreasing_by exact Nat.lt_succ_of_le (List.length_filter_le _ _)

/-- Stable insertion of an element into a list by a Boolean order. -/
def insertSorted (le : α → α → Bool) (a : α) : List α → List α
  | [] => [a]
  | b :: bs => if le a b then a :: b :: bs else b :: insertSorted le a bs

/-- Stable insertion sort by a Boolean order (the deterministic model
of pandas sorts; pandas breaks ties arbitrarily, and no claim rests on
tie order). -/
def isortBy (le : α → α → Bool) : List α → List α
  | [] => []
  | a :: as => insertSorted le a (isortBy le as)

/-- Ordering of group keys, as pandas sorts homogeneous key columns
(ascending); constructor rank breaks mixed-type comparisons
deterministically. -/
def keyLe (a b : Value) : Bool :=
  match a, b with
  | .missing, _ => true
  | _, .missing => false
  | .str s1, .str s2 => decide (s1 ≤ s2)
  | .str _, _ => true
  | _, .str _ => false
  | .num n1, .num n2 => decide (n1 ≤ n2)
  | .num _, _ => true
  | _, .num _ => false
  | .date d1, .date d2 => decide (d1 ≤ d2)

/-- `groupby` key order: sorted ascending (`sort=True` default). -/
def sortKeys (ks : List Value) : List Value := isortBy keyLe ks

/-- The number of distinct denial reasons after the fill. -/
def distinctReasons (df : List Row) : Nat :=
  (firstDedup ((fillnaReason df).map (fun r => r.Denial_reason))).length

/-- The top-denial-reasons block: fill missing reasons with "Unknown"
in place, group by `Denial_reason` summing `Denied_amount`, sort
descending by the summed amount, keep the top 10. Returns the (mutated)
filtered dataset alongside the summary. -/
def denial_summary (df : List Row) : List Row × List (Value × Int) :=
  let df2 := fillnaReason df
  let keys := sortKeys (firstDedup (df2.map (fun r => r.Denial_reason)))
  let grouped := keys.map (fun k =>
    (k, sumDenied (df2.filter (fun r => decide (r.Denial_reason = k)))))
  (df2, (isortBy (fun a b => decide (b.2 ≤ a.2)) grouped).take 10)

/-- `value_counts()` on `Claim_Status`: count per status (missing
statuses dropped), most frequent first. -/
def status_chart (df : List Row) : List (Value × Nat) :=
  let keys := firstDedup ((df.map (fun r => r.Claim_Status)).filter
    (fun v => !decide (v = Value.missing)))
  let counted := keys.map (fun k =>
    (k, (df.filter (fun r => decide (r.Claim_Status = k))).length))
  isortBy (fun a b => decide (b.2 ≤ a.2)) counted

/-- `groupby("Region")["Denied_amount"].sum()`: denied amount per
region, ascending region label, missing regions dropped by the
grouper. -/
def denied_by_region (df : List Row) : List (Value × Int) :=
  let keys := sortKeys (firstDedup ((df.map (fun r => r.Region)).filter
    (fun v => !decide (v = Value.missing))))
  keys.map (fun k => (k, sumDenied (df.filter (fun r => decide (r.Region = k)))))

/- ### CSV encoding (`df.to_csv(index=False)`) and parsing (`pd.read_csv`) -/

/-- Whether a CSV field must be quoted (`csv.QUOTE_MINIMAL`). -/
def needsQuote (cs : List Char) : Bool :=
  cs.any (fun c => c = ',' || c = '"' || c = '\n' || c = '\r')

/-- Double every quote character (the standard CSV escape). -/
def escapeQuotes : List Char → List Char
  | [] => []
  | c :: cs => if c = '"' then '"' :: '"' :: escapeQuotes cs else c :: escapeQuotes cs

/-- Encode one field, quoting when needed. -/
def encField (cs : List Char) : List Char :=
  if needsQuote cs then '"' :: (escapeQuotes cs ++ ['"']) else cs

/-- Encode one record: fields joined by commas. -/
def encRow : List (List Char) → List Char
  | [] => []
  | f :: fs => if fs.isEmpty then encField f else encField f ++ ',' :: encRow fs

/-- Encode a table: one line per record, each ended by a newline. -/
def encTable (rows : List (List (List Char))) : List Char :=
  rows.foldr (fun r acc => encRow r ++ '\n' :: acc) []

/-- Parse the body of a quoted field (the opening quote already
consumed): doubled quotes unescape, the closing quote ends the field. -/
def parseQuotedBody : List Char → Option (List Char × List Char)
  | [] => none
  | c :: rest =>
    if c = '"' then
      match rest with
      | [] => some ([], [])
      | c2 :: rest2 =>
        if c2 = '"' then (parseQuotedBody rest2).map (fun p => ('"' :: p.1, p.2))
        else some ([], c2 :: rest2)
    else (parseQuotedBody rest).map (fun p => (c :: p.1, p.2))

/-- Parse an unquoted field: everything up to a comma or newline. -/
def parseUnquoted : List Char → List Char × List Char
  | [] => ([], [])
  | c :: rest =>
    if c = ',' || c = '\n' then ([], c :: rest)
    else
      let p := parseUnquoted rest
      (c :: p.1, p.2)

/-- Parse one field, quoted or not. -/
def parseFieldCsv : List Char → Option (List Char × List Char)
  | [] => some ([], [])
  | c :: rest =>
    if c = '"' then parseQuotedBody rest
    else some (parseUnquoted (c :: rest))

/-- Parse one record: comma-separated fields up to a newline or the
end of input (fueled; the fuel only needs to cover the field count). -/
def parseRecordCsv : List Char → Nat → Option (List (List Char) × List Char)
  | _, 0 => none
  | cs, fuel + 1 =>
    match parseFieldCsv cs with
    | none => none
    | some (f, rest) =>
      match rest with
      | [] => some ([f], [])
      | c :: rest2 =>
        if c = ',' then (parseRecordCsv rest2 fuel).map (fun p => (f :: p.1, p.2))
        else if c = '\n' then some ([f], rest2)
        else none

/-- Parse all records of a CSV payload. -/
def parseRowsCsv : List Char → Nat → Option (List (List (List Char)))
  | [], _ => some []
  | _ :: _, 0 => none
  | c :: cs, fuel + 1 =>
    match parseRecordCsv (c :: cs) (cs.length + 2) with
    | none => none
    | some (r, rest) => (parseRowsCsv rest fuel).map (fun rs => r :: rs)

/-- Whether one field is compatible with a numeric column: empty
(`NaN`) or a numeral. -/
def okNumField (cs : List Char) : Bool :=
  cs.isEmpty || (parseIntL cs).isSome

/-- `pd.read_csv` infers dtypes PER COLUMN: column `j` becomes numeric
exactly when every record's field `j` is empty or a numeral (a short
record contributes nothing, as with pandas' own missing trailing
fields). -/
def colNumeric (rows : List (List (List Char))) (j : Nat) : Bool :=
  rows.all (fun row =>
    match row[j]? with
    | some cs => okNumField cs
    | none => true)

/-- One data cell under its column's inferred dtype: an empty field is
missing (`NaN`); in a numeric column a numeral becomes a number; in an
object column every nonempty field stays text — so a numeral string
such as "0123" survives as text only while a non-numeral value shares
its column. -/
def inferCell (numeric : Bool) (cs : List Char) : Value :=
  if cs.isEmpty then .missing
  else if numeric then
    match parseIntL cs with
    | some n => .num n
    | none => .missing
  else .str (String.mk cs)

/-- Map with the element's position, counting from `i`. -/
def idxMap (f : Nat → α → β) (i : Nat) : List α → List β
  | [] => []
  | a :: as => f i a :: idxMap f (i + 1) as

/-- `pd.read_csv` on a CSV payload: first record is the header (column
names); each remaining record's fields are read under their column's
inferred dtype. -/
def read_csv (s : String) : Option RawTable :=
  match parseRowsCsv s.data (s.data.length + 1) with
  | none => none
  | some [] => none
  | some (header :: dataRows) =>
    some ⟨header.map (fun cs => String.mk cs),
          dataRows.map (fun row =>
            idxMap (fun j cs => inferCell (colNumeric dataRows j) cs) 0 row)⟩

/-- The upload path: `pd.read_csv` then `load_data`'s validation and
date coercion (a malformed payload fails the read itself). -/
def load_from_csv (s : String) : Except (List String) RawTable :=
  match read_csv s with
  | none => .error ["unparsable CSV payload"]
  | some t => load_data t

/-- Rendering of one cell in `df.to_csv`: missing is the empty field,
numbers and dates in their canonical decimal / ISO forms. -/
def printValue (v : Value) : List Char :=
  match v with
  | .str s => s.data
  | .num n => printIntL n
  | .date d => printDate d
  | .missing => []

/-- The 13 required cells of a record, in required-column order. -/
def rowCells (r : Row) : List Value :=
  [r.ICD10_Code, r.CPT_Code, r.claim_date, r.Patient_Age, r.Gender, r.Region,
   r.Provider_Specialty, r.Hospital_Type, r.Claim_Status, r.Claimed_Amount,
   r.Approved_Amount, r.Denied_amount, r.Denial_reason]

/-- `df.to_csv(index=False).encode("utf-8")`: header row then one line
per record, no index column. -/
def to_csv (df : List Row) : String :=
  String.mk (encTable ((EXPECTED_COLUMNS.map (fun c => c.data))
    :: df.map (fun r => (rowCells r).map printValue)))

/-- A cell whose CSV rendering reads back to itself under a matching
column dtype: missing, numeric, or nonempty non-numeral text. Numeral
text cells (e.g. "0123", reachable by filtering a mixed uploaded
column down to its numeral entries) are excluded: they are exactly the
cells the export/re-parse round trip converts to numbers. -/
def canonicalCell (v : Value) : Bool :=
  match v with
  | .missing => true
  | .num _ => true
  | .str s => !s.data.isEmpty && (parseIntL s.data).isNone
  | .date _ => false

/-- A `claim_date` cell after date coercion: a real calendar date or
the missing marker. -/
def dateCell (v : Value) : Bool :=
  match v with
  | .date d => decide (DateOk d)
  | .missing => true
  | _ => false

/-- A record whose every cell reads back to itself: a coerced
`claim_date` and round-trippable cells everywhere else. -/
def canonicalRow (r : Row) : Bool :=
  dateCell r.claim_date && canonicalCell r.ICD10_Code && canonicalCell r.CPT_Code
    && canonicalCell r.Patient_Age && canonicalCell r.Gender && canonicalCell r.Region
    && canonicalCell r.Provider_Specialty && canonicalCell r.Hospital_Type
    && canonicalCell r.Claim_Status && canonicalCell r.Claimed_Amount
    && canonicalCell r.Approved_Amount && canonicalCell r.Denied_amount
    && canonicalCell r.Denial_reason

/-- A numeric-or-missing cell. -/
def isNumCell (v : Value) : Bool :=
  match v with
  | .num _ => true
  | .missing => true
  | _ => false

/-- A text-or-missing cell. -/
def isTextCell (v : Value) : Bool :=
  match v with
  | .str _ => true
  | .missing => true
  | _ => false

/-- A column of a table holds one kind of data: only numbers (or
missing) or only text (or missing) — the shape every column of a
`pd.read_csv`-loaded table has, since a dtype is per column. -/
def HomogeneousCol (df : List Row) (proj : Row → Value) : Prop :=
  (∀ r ∈ df, isNumCell (proj r) = true) ∨ (∀ r ∈ df, isTextCell (proj r) = true)

instance (df : List Row) (proj : Row → Value) : Decidable (HomogeneousCol df proj) :=
  inferInstanceAs (Decidable (_ ∨ _))

/-- A concrete canonical record exercising quoting: its denial reason
holds a comma and escaped quotes. -/
def csvRow : Row :=
  ⟨.str "A00", .str "B123", .date ⟨2025, 2, 15⟩, .num 45, .str "F", .str "South",
   .str "Orthopedics", .str "Public", .str "Denied", .num 2000, .num 0, .num 2000,
   .str "Missing \"info\", resubmit"⟩

/-- A concrete filtered record whose `Region` is the TEXT "0123": such
a record is program-reachable (upload a file whose Region column mixes
"0123" with non-numeral labels — the mixed column is read as text —
then filter the others away); once alone in its column, its export
re-parses as the NUMBER 123. -/
def numRow : Row :=
  ⟨.str "A00", .str "B123", .date ⟨2025, 2, 15⟩, .num 45, .str "F", .str "0123",
   .str "Orthopedics", .str "Public", .str "Denied", .num 2000, .num 0, .num 2000,
   .str "Missing info"⟩

/-- A concrete record dated 2025-01-15 with a denied amount of 5. -/
def trendRow : Row :=
  ⟨.str "A00", .str "12345", .date ⟨2025, 1, 15⟩, .num 34, .str "M", .str "North",
   .str "Cardiology", .str "Private", .str "Approved", .num 1000, .num 995, .num 5,
   .missing⟩

/- ### Generic list lemmas used by several claims -/

/-- Summing a function over a list equals summing it over only the
elements where a predicate holds, provided the function vanishes where
the predicate fails. -/
theorem sum_map_filter_of_vanish (l : List α) (f : α → Int) (p : α → Bool)
    (h : ∀ a, p a = false → f a = 0) :
    ((l.filter p).map f).sum = (l.map f).sum := by
  induction l with
  | nil => rfl
  | cons a l ih =>
    cases hp : p a with
    | true => simp [List.filter_cons, hp, ih]
    | false => simp [List.filter_cons, hp, ih, h a hp]

/-- A sum over a list splits into the sums over the rows satisfying and
failing a predicate. -/
theorem sum_map_filter_split (l : List α) (f : α → Int) (p : α → Bool) :
    ((l.filter p).map f).sum + ((l.filter (fun a => !p a)).map f).sum
      = (l.map f).sum := by
  induction l with
  | nil => rfl
  | cons a l ih =>
    cases hp : p a <;>
      simp only [List.filter_cons, hp, Bool.not_true, Bool.not_false, if_true, if_false,
        List.map_cons, List.sum_cons, Bool.false_eq_true, Bool.true_eq_false] <;>
      omega

/-- `foldl min` bounds the seed and every element from below. -/
theorem foldl_min_le (is : List Nat) (i : Nat) :
    is.foldl min i ≤ i ∧ ∀ x ∈ is, is.foldl min i ≤ x := by
  induction is generalizing i with
  | nil => exact ⟨Nat.le_refl i, by simp⟩
  | cons a as ih =>
    have h := ih (min i a)
    refine ⟨Nat.le_trans h.1 (Nat.min_le_left i a), ?_⟩
    intro x hx
    rcases List.mem_cons.mp hx with rfl | hx
    · exact Nat.le_trans h.1 (Nat.min_le_right i x)
    · exact h.2 x hx

/-- `foldl max` bounds the seed and every element from above. -/
theorem le_foldl_max (is : List Nat) (i : Nat) :
    i ≤ is.foldl max i ∧ ∀ x ∈ is, x ≤ is.foldl max i := by
  induction is generalizing i with
  | nil => exact ⟨Nat.le_refl i, by simp⟩
  | cons a as ih =>
    have h := ih (max i a)
    refine ⟨Nat.le_trans (Nat.le_max_left i a) h.1, ?_⟩
    intro x hx
    rcases List.mem_cons.mp hx with rfl | hx
    · exact Nat.le_trans (Nat.le_max_right i x) h.1
    · exact h.2 x hx

/-- Summing the per-fiber sums over a duplicate-free list of keys that
covers every keyed row equals the sum over the keyed rows. -/
theorem sum_fiber_partition (rows : List α) (key : α → Option Nat) (f : α → Int)
    (ks : List Nat) (hnd : ks.Nodup)
    (hcov : ∀ r ∈ rows, ∀ n, key r = some n → n ∈ ks) :
    (ks.map (fun k =>
      ((rows.filter (fun r => decide (key r = some k))).map f).sum)).sum
      = ((rows.filter (fun r => (key r).isSome)).map f).sum := by
  induction ks generalizing rows with
  | nil =>
    have hnil : rows.filter (fun r => (key r).isSome) = [] := by
      rw [List.filter_eq_nil_iff]
      intro r hr hs
      obtain ⟨n, hn⟩ := Option.isSome_iff_exists.mp hs
      exact absurd (hcov r hr n hn) (List.not_mem_nil n)
    rw [hnil]
    rfl
  | cons k ks ih =>
    have hknotin : k ∉ ks := (List.nodup_cons.mp hnd).1
    have hndk : ks.Nodup := (List.nodup_cons.mp hnd).2
    set rows' := rows.filter (fun r => !decide (key r = some k)) with hrows'
    have hfib : ∀ k' ∈ ks, rows.filter (fun r => decide (key r = some k'))
        = rows'.filter (fun r => decide (key r = some k')) := by
      intro k' hk'
      rw [hrows', List.filter_filter]
      apply List.filter_congr
      intro r _
      cases hkr : decide (key r = some k') with
      | false => simp
      | true =>
        have : key r = some k' := of_decide_eq_true hkr
        have hne : ¬ (key r = some k) := by
          rw [this]
          intro hc
          exact hknotin (Option.some_inj.mp hc ▸ hk')
        have hkk : ¬ k' = k := by
          intro hq
          exact hne (hq ▸ this)
        simp [this, hne, hkk]
    have hmaps : (ks.map (fun k' =>
        ((rows.filter (fun r => decide (key r = some k'))).map f).sum))
        = (ks.map (fun k' =>
        ((rows'.filter (fun r => decide (key r = some k'))).map f).sum)) := by
      apply List.map_congr_left
      intro k' hk'
      rw [hfib k' hk']
    have hcov' : ∀ r ∈ rows', ∀ n, key r = some n → n ∈ ks := by
      intro r hr n hn
      have hmem := List.mem_filter.mp hr
      rcases List.mem_cons.mp (hcov r hmem.1 n hn) with rfl | h
      · exfalso
        have := hmem.2
        rw [hn] at this
        simp at this
      · exact h
    have hsplit : ((rows.filter (fun r => decide (key r = some k))).map f).sum
        + ((rows'.filter (fun r => (key r).isSome)).map f).sum
        = ((rows.filter (fun r => (key r).isSome)).map f).sum := by
      have h1 : (rows.filter (fun r => (key r).isSome)).filter
          (fun r => decide (key r = some k))
          = rows.filter (fun r => decide (key r = some k)) := by
        rw [List.filter_filter]
        apply List.filter_congr
        intro r _
        cases hkr : decide (key r = some k) with
        | false => simp
        | true =>
          have : key r = some k := of_decide_eq_true hkr
          simp [this]
      have h2 : (rows.filter (fun r => (key r).isSome)).filter
          (fun r => !decide (key r = some k))
          = rows'.filter (fun r => (key r).isSome) := by
        rw [hrows', List.filter_filter, List.filter_filter]
        apply List.filter_congr
        intro r _
        cases (key r).isSome <;> cases decide (key r = some k) <;> simp
      rw [← h1, ← h2]
      exact sum_map_filter_split (rows.filter (fun r => (key r).isSome)) f
        (fun r => decide (key r = some k))
    calc (((k :: ks).map (fun k' =>
        ((rows.filter (fun r => decide (key r = some k'))).map f).sum)).sum)
        = ((rows.filter (fun r => decide (key r = some k))).map f).sum
          + (ks.map (fun k' =>
            ((rows.filter (fun r => decide (key r = some k'))).map f).sum)).sum := by
          rw [List.map_cons, List.sum_cons]
      _ = ((rows.filter (fun r => decide (key r = some k))).map f).sum
          + ((rows'.filter (fun r => (key r).isSome)).map f).sum := by
          rw [hmaps, ih rows' hndk hcov']
      _ = ((rows.filter (fun r => (key r).isSome)).map f).sum := hsplit

/-- Insertion places the new element somewhere: a permutation of cons. -/
theorem perm_insertSorted (le : α → α → Bool) (a : α) (l : List α) :
    (insertSorted le a l).Perm (a :: l) := by
  induction l with
  | nil => exact List.Perm.refl _
  | cons b bs ih =>
    cases h : le a b with
    | true =>
      simp only [insertSorted, h, if_true]
      exact List.Perm.refl _
    | false =>
      simp only [insertSorted, h, Bool.false_eq_true, if_false]
      exact (ih.cons b).trans (List.Perm.swap a b bs)

/-- Insertion sort permutes its input. -/
theorem perm_isortBy (le : α → α → Bool) (l : List α) :
    (isortBy le l).Perm l := by
  induction l with
  | nil => exact List.Perm.refl _
  | cons a as ih => exact (perm_insertSorted le a (isortBy le as)).trans (ih.cons a)

/-- Inserting into a sorted list keeps it sorted, for a total,
transitive Boolean order. -/
theorem pairwise_insertSorted (le : α → α → Bool)
    (htot : ∀ a b, le a b = true ∨ le b a = true)
    (htrans : ∀ a b c, le a b = true → le b c = true → le a c = true)
    (a : α) (l : List α) (hl : l.Pairwise (fun x y => le x y = true)) :
    (insertSorted le a l).Pairwise (fun x y => le x y = true) := by
  induction l with
  | nil => simp [insertSorted]
  | cons b bs ih =>
    rcases List.pairwise_cons.mp hl with ⟨hb, hbs⟩
    cases h : le a b with
    | true =>
      simp only [insertSorted, h, if_true]
      refine List.pairwise_cons.mpr ⟨?_, hl⟩
      intro x hx
      rcases List.mem_cons.mp hx with rfl | hx
      · exact h
      · exact htrans a b x h (hb x hx)
    | false =>
      simp only [insertSorted, h, Bool.false_eq_true, if_false]
      refine List.pairwise_cons.mpr ⟨?_, ih hbs⟩
      intro x hx
      have hx2 := (perm_insertSorted le a bs).mem_iff.mp hx
      rcases List.mem_cons.mp hx2 with rfl | hx2
      · rcases htot x b with h1 | h1
        · rw [h1] at h
          cases h
        · exact h1
      · exact hb x hx2

/-- Insertion sort sorts, for a total, transitive Boolean order. -/
theorem pairwise_isortBy (le : α → α → Bool)
    (htot : ∀ a b, le a b = true ∨ le b a = true)
    (htrans : ∀ a b c, le a b = true → le b c = true → le a c = true)
    (l : List α) : (isortBy le l).Pairwise (fun x y => le x y = true) := by
  induction l with
  | nil => simp [isortBy]
  | cons a as ih => exact pairwise_insertSorted le htot htrans a (isortBy le as) ih

/-- `firstDedup` keeps exactly the values of its input. -/
theorem mem_firstDedup (l : List Value) (x : Value) :
    x ∈ firstDedup l ↔ x ∈ l := by
  induction l using firstDedup.induct with
  | case1 => rw [firstDedup]
  | case2 v vs ih =>
    rw [firstDedup]
    constructor
    · intro hx
      rcases List.mem_cons.mp hx with rfl | hx
      · exact List.mem_cons_self x vs
      · have := ih.mp hx
        exact List.mem_cons.mpr (.inr (List.mem_filter.mp this).1)
    · intro hx
      rcases List.mem_cons.mp hx with rfl | hx
      · exact List.mem_cons_self x _
      · by_cases hxv : x = v
        · exact hxv ▸ List.mem_cons_self v _
        · refine List.mem_cons.mpr (.inr (ih.mpr ?_))
          exact List.mem_filter.mpr ⟨hx, by simp [hxv]⟩

/-- `firstDedup` yields duplicate-free output. -/
theorem nodup_firstDedup (l : List Value) : (firstDedup l).Nodup := by
  induction l using firstDedup.induct with
  | case1 => rw [firstDedup]; exact List.nodup_nil
  | case2 v vs ih =>
    rw [firstDedup]
    refine List.nodup_cons.mpr ⟨?_, ih⟩
    intro hv
    have := (mem_firstDedup _ v).mp hv
    have := (List.mem_filter.mp this).2
    simp at this

/- ### Digit, numeral and date round trips -/

/-- Every digit character produced by `digitChar` passes `isDigitChar`. -/
theorem isDigitChar_digitChar (k : Nat) : isDigitChar (digitChar k) = true := by
  match k with
  | 0 | 1 | 2 | 3 | 4 | 5 | 6 | 7 | 8 => decide
  | n + 9 =>
    show isDigitChar '9' = true
    decide

/-- `digitVal` inverts `digitChar` below ten. -/
theorem digitVal_digitChar (k : Nat) (h : k < 10) : digitVal (digitChar k) = k := by
  interval_cases k <;> decide

/-- The digit rendering of a natural number is never empty. -/
theorem natDigits_ne_nil (n : Nat) : natDigits n ≠ [] := by
  rw [natDigits_eq]
  by_cases h : n < 10
  · rw [if_pos h]
    exact List.cons_ne_nil _ _
  · rw [if_neg h]
    exact List.append_ne_nil_of_right_ne_nil _ (List.cons_ne_nil _ _)

/-- Every character of the digit rendering is a digit. -/
theorem natDigits_all_digits (n : Nat) : (natDigits n).all isDigitChar = true := by
  induction n using Nat.strong_induction_on with
  | _ n ih =>
    rw [natDigits_eq]
    by_cases h : n < 10
    · rw [if_pos h]
      simp [isDigitChar_digitChar]
    · rw [if_neg h]
      rw [List.all_append, Bool.and_eq_true]
      exact ⟨ih (n / 10) (Nat.div_lt_self (by omega) (by omega)),
        by simp [isDigitChar_digitChar]⟩

/-- Reading back the digit rendering recovers the number. -/
theorem digitsVal_natDigits (n : Nat) : digitsVal (natDigits n) = n := by
  induction n using Nat.strong_induction_on with
  | _ n ih =>
    rw [natDigits_eq]
    by_cases h : n < 10
    · rw [if_pos h]
      show 0 * 10 + digitVal (digitChar n) = n
      rw [digitVal_digitChar n h]
      omega
    · rw [if_neg h]
      rw [digitsVal, List.foldl_append]
      have hih := ih (n / 10) (Nat.div_lt_self (by omega) (by omega))
      rw [digitsVal] at hih
      rw [hih]
      show n / 10 * 10 + digitVal (digitChar (n % 10)) = n
      rw [digitVal_digitChar (n % 10) (by omega)]
      omega

/-- Leading zeros do not change the value read back. -/
theorem digitsVal_replicate_zero (k : Nat) (ds : List Char) :
    digitsVal (List.replicate k '0' ++ ds) = digitsVal ds := by
  induction k with
  | zero => rfl
  | succ k ihk =>
    rw [List.replicate_succ, List.cons_append]
    show (List.replicate k '0' ++ ds).foldl (fun acc c => acc * 10 + digitVal c)
      (0 * 10 + digitVal '0') = digitsVal ds
    have : 0 * 10 + digitVal '0' = 0 := by decide
    rw [this]
    exact ihk

/-- Parsing the zero-padded digit rendering recovers the number. -/
theorem parseNatL_padNat (w n : Nat) : parseNatL (padNat w n) = some n := by
  rw [parseNatL, padNat]
  have hne : (List.replicate (w - (natDigits n).length) '0' ++ natDigits n).isEmpty = false := by
    rcases hd : natDigits n with _ | ⟨c, cs⟩
    · exact absurd hd (natDigits_ne_nil n)
    · rw [List.isEmpty_eq_false_iff_exists_mem]
      exact ⟨c, by simp [hd]⟩
  have hall : (List.replicate (w - (natDigits n).length) '0' ++ natDigits n).all
      isDigitChar = true := by
    rw [List.all_append, Bool.and_eq_true]
    refine ⟨?_, natDigits_all_digits n⟩
    rw [List.all_eq_true]
    intro c hc
    rw [List.eq_of_mem_replicate hc]
    decide
  rw [hne, hall]
  show some (digitsVal _) = some n
  rw [digitsVal_replicate_zero, digitsVal_natDigits]

/-- Parsing the bare digit rendering recovers the number. -/
theorem parseNatL_natDigits (n : Nat) : parseNatL (natDigits n) = some n := by
  have h := parseNatL_padNat 0 n
  rw [padNat, Nat.zero_sub, List.replicate_zero, List.nil_append] at h
  exact h

/-- A digit character is not a minus sign. -/
theorem digit_ne_minus (c : Char) (h : isDigitChar c = true) : c ≠ '-' := by
  intro hc
  rw [hc] at h
  exact absurd h (by decide)

/-- Parsing the decimal rendering of an integer recovers it. -/
theorem parseIntL_printIntL (n : Int) : parseIntL (printIntL n) = some n := by
  rw [printIntL]
  by_cases h : n < 0
  · rw [if_pos h, parseIntL, if_pos rfl, parseNatL_natDigits]
    show some (-(n.natAbs : Int)) = some n
    congr 1
    omega
  · rw [if_neg h]
    rcases hd : natDigits n.natAbs with _ | ⟨c, cs⟩
    · exact absurd hd (natDigits_ne_nil _)
    · have hdig : isDigitChar c = true := by
        have := natDigits_all_digits n.natAbs
        rw [hd, List.all_cons, Bool.and_eq_true] at this
        exact this.1
      rw [parseIntL, if_neg (digit_ne_minus c hdig), ← hd, parseNatL_natDigits]
      show some ((n.natAbs : Int)) = some n
      congr 1
      omega

/-- The decimal rendering of an integer is never empty. -/
theorem printIntL_ne_nil (n : Int) : printIntL n ≠ [] := by
  rw [printIntL]
  by_cases h : n < 0
  · rw [if_pos h]
    exact List.cons_ne_nil _ _
  · rw [if_neg h]
    exact natDigits_ne_nil _

/-- Splitting at the first separator of a clean prefix. -/
theorem splitOnChar_append (sep : Char) (xs rest : List Char)
    (hx : ∀ c ∈ xs, c ≠ sep) :
    splitOnChar sep (xs ++ sep :: rest) = xs :: splitOnChar sep rest := by
  induction xs with
  | nil =>
    rw [List.nil_append, splitOnChar, if_pos rfl]
  | cons c xs ih =>
    have hc : c ≠ sep := hx c (List.mem_cons_self c xs)
    rw [List.cons_append, splitOnChar, if_neg hc,
      ih (fun x hx2 => hx x (List.mem_cons_of_mem c hx2))]

/-- A separator-free list does not split. -/
theorem splitOnChar_no_sep (sep : Char) (xs : List Char)
    (hx : ∀ c ∈ xs, c ≠ sep) :
    splitOnChar sep xs = [xs] := by
  induction xs with
  | nil => rfl
  | cons c xs ih =>
    have hc : c ≠ sep := hx c (List.mem_cons_self c xs)
    rw [splitOnChar, if_neg hc, ih (fun x hx2 => hx x (List.mem_cons_of_mem c hx2))]

/-- Padded digit runs contain no separator. -/
theorem padNat_no_minus (w n : Nat) : ∀ c ∈ padNat w n, c ≠ '-' := by
  intro c hc
  rw [padNat] at hc
  rcases List.mem_append.mp hc with hc | hc
  · rw [List.eq_of_mem_replicate hc]
    decide
  · have := natDigits_all_digits n
    rw [List.all_eq_true] at this
    exact digit_ne_minus c (this c hc)

/-- Parsing the ISO rendering of a real calendar date recovers it. -/
theorem parseDate_printDate (d : Date) (h : DateOk d) :
    parseDate (printDate d) = some d := by
  obtain ⟨h1, h2, h3, h4⟩ := h
  rw [printDate, parseDate]
  rw [splitOnChar_append '-' (padNat 4 d.year) _ (padNat_no_minus 4 d.year)]
  rw [splitOnChar_append '-' (padNat 2 d.month) _ (padNat_no_minus 2 d.month)]
  rw [splitOnChar_no_sep '-' (padNat 2 d.day) (padNat_no_minus 2 d.day)]
  show (match parseNatL (padNat 4 d.year), parseNatL (padNat 2 d.month),
      parseNatL (padNat 2 d.day) with
    | some y, some m, some dd =>
      if 1 ≤ m ∧ m ≤ 12 ∧ 1 ≤ dd ∧ dd ≤ daysInMonth y m
      then some ⟨y, m, dd⟩ else none
    | _, _, _ => none) = some d
  rw [parseNatL_padNat, parseNatL_padNat, parseNatL_padNat]
  show (if 1 ≤ d.month ∧ d.month ≤ 12 ∧ 1 ≤ d.day ∧ d.day ≤ daysInMonth d.year d.month
    then some ⟨d.year, d.month, d.day⟩ else none) = some d
  rw [if_pos ⟨h1, h2, h3, h4⟩]

/- ### CSV encode/parse round trip -/

/-- An unquoted clean field parses back exactly, stopping at the
delimiter that follows it. -/
theorem parseUnquoted_clean (f suffix : List Char)
    (hf : ∀ c ∈ f, c ≠ ',' ∧ c ≠ '\n')
    (hs : suffix = [] ∨ ∃ c rest, suffix = c :: rest ∧ (c = ',' ∨ c = '\n')) :
    parseUnquoted (f ++ suffix) = (f, suffix) := by
  induction f with
  | nil =>
    rw [List.nil_append]
    rcases hs with rfl | ⟨c, rest, rfl, hc⟩
    · rfl
    · rcases hc with rfl | rfl <;> simp [parseUnquoted]
  | cons a f ih =>
    have ha := hf a (List.mem_cons_self a f)
    rw [List.cons_append, parseUnquoted]
    simp only [ha.1, ha.2, decide_False, Bool.or_false, Bool.false_eq_true, if_false]
    rw [ih (fun c hc => hf c (List.mem_cons_of_mem a hc))]

/-- The escaped body of a quoted field parses back exactly, consuming
its closing quote. -/
theorem parseQuotedBody_enc (f suffix : List Char)
    (hs : suffix = [] ∨ ∃ c rest, suffix = c :: rest ∧ c ≠ '"') :
    parseQuotedBody (escapeQuotes f ++ '"' :: suffix) = some (f, suffix) := by
  induction f with
  | nil =>
    show parseQuotedBody ('"' :: suffix) = some ([], suffix)
    rcases hs with rfl | ⟨c, rest, rfl, hc⟩
    · rfl
    · simp [parseQuotedBody, hc]
  | cons a f ih =>
    by_cases ha : a = '"'
    · subst ha
      show parseQuotedBody ('"' :: '"' :: (escapeQuotes f ++ '"' :: suffix))
          = some ('"' :: f, suffix)
      have h1 : parseQuotedBody ('"' :: '"' :: (escapeQuotes f ++ '"' :: suffix))
          = (parseQuotedBody (escapeQuotes f ++ '"' :: suffix)).map
            (fun p => ('"' :: p.1, p.2)) := by
        rw [parseQuotedBody.eq_def]
        simp
      rw [h1, ih]
      rfl
    · have h2 : escapeQuotes (a :: f) = a :: escapeQuotes f := by
        rw [escapeQuotes, if_neg ha]
      rw [h2, List.cons_append]
      have h3 : parseQuotedBody (a :: (escapeQuotes f ++ '"' :: suffix))
          = (parseQuotedBody (escapeQuotes f ++ '"' :: suffix)).map
            (fun p => (a :: p.1, p.2)) := by
        rw [parseQuotedBody.eq_def]
        simp [ha]
      rw [h3, ih]
      rfl

/-- An encoded field parses back exactly, leaving the delimiter that
follows it. -/
theorem parseFieldCsv_enc (f suffix : List Char)
    (hs : suffix = [] ∨ ∃ c rest, suffix = c :: rest ∧ (c = ',' ∨ c = '\n')) :
    parseFieldCsv (encField f ++ suffix) = some (f, suffix) := by
  have hs2 : suffix = [] ∨ ∃ c rest, suffix = c :: rest ∧ c ≠ '"' := by
    rcases hs with rfl | ⟨c, rest, rfl, hc⟩
    · exact .inl rfl
    · refine .inr ⟨c, rest, rfl, ?_⟩
      rcases hc with rfl | rfl <;> decide
  cases hq : needsQuote f with
  | true =>
    rw [encField, if_pos hq]
    rw [List.cons_append, List.append_assoc, List.singleton_append]
    rw [parseFieldCsv, if_pos rfl]
    exact parseQuotedBody_enc f suffix hs2
  | false =>
    rw [encField, if_neg (by rw [hq]; exact Bool.false_ne_true)]
    have hclean : ∀ c ∈ f, ¬(c = ',' || c = '"' || c = '\n' || c = '\r') = true := by
      intro c hc hcl
      have : f.any (fun c => c = ',' || c = '"' || c = '\n' || c = '\r') = true :=
        List.any_eq_true.mpr ⟨c, hc, hcl⟩
      rw [needsQuote] at hq
      rw [hq] at this
      cases this
    cases f with
    | nil =>
      rw [List.nil_append]
      rcases hs with rfl | ⟨c, rest, rfl, hc⟩
      · rfl
      · have hcq : c ≠ '"' := by rcases hc with rfl | rfl <;> decide
        rw [parseFieldCsv, if_neg hcq]
        rcases hc with rfl | rfl <;> simp [parseUnquoted]
    | cons a f2 =>
      have hca := hclean a (List.mem_cons_self a f2)
      have haq : a ≠ '"' := by
        intro hv
        exact hca (by rw [hv]; decide)
      have hcomma : a ≠ ',' := by
        intro hv
        exact hca (by rw [hv]; decide)
      have hnl : a ≠ '\n' := by
        intro hv
        exact hca (by rw [hv]; decide)
      rw [List.cons_append, parseFieldCsv, if_neg haq, ← List.cons_append]
      rw [parseUnquoted_clean (a :: f2) suffix ?_ hs]
      intro c hc
      rcases List.mem_cons.mp hc with rfl | hc
      · exact ⟨hcomma, hnl⟩
      · have hcc := hclean c (List.mem_cons_of_mem a hc)
        constructor
        · intro hv
          exact hcc (by rw [hv]; decide)
        · intro hv
          exact hcc (by rw [hv]; decide)

/-- A record holds at least its field count under its encoding's
length plus one. -/
theorem encRow_length (fields : List (List Char)) :
    fields.length ≤ (encRow fields).length + 1 := by
  induction fields with
  | nil => simp [encRow]
  | cons f fs ih =>
    cases hfs : fs with
    | nil => simp [encRow]
    | cons f2 fs2 =>
      rw [encRow]
      rw [hfs] at ih
      simp only [hfs, List.isEmpty_cons, Bool.false_eq_true, if_false,
        List.length_append, List.length_cons]
      simp only [List.length_cons] at ih
      omega

/-- An encoded record followed by a newline parses back exactly, given
fuel covering the field count. -/
theorem parseRecordCsv_enc (fields : List (List Char)) (rest : List Char) :
    ∀ fuel, fields ≠ [] → fields.length ≤ fuel →
    parseRecordCsv (encRow fields ++ '\n' :: rest) fuel = some (fields, rest) := by
  induction fields with
  | nil =>
    intro fuel h _
    exact absurd rfl h
  | cons f fs ih =>
    intro fuel _ hfuel
    obtain ⟨fuel2, rfl⟩ : ∃ k, fuel = k + 1 :=
      ⟨fuel - 1, by simp only [List.length_cons] at hfuel; omega⟩
    cases hfs : fs with
    | nil =>
      rw [encRow]
      simp only [hfs, List.isEmpty_nil, if_true]
      rw [parseRecordCsv]
      rw [parseFieldCsv_enc f ('\n' :: rest) (.inr ⟨'\n', rest, rfl, .inr rfl⟩)]
      simp
    | cons f2 fs2 =>
      rw [encRow]
      simp only [hfs, List.isEmpty_cons, Bool.false_eq_true, if_false]
      rw [List.append_assoc, List.cons_append]
      rw [parseRecordCsv]
      rw [parseFieldCsv_enc f (',' :: (encRow (f2 :: fs2) ++ '\n' :: rest))
        (.inr ⟨',', _, rfl, .inl rfl⟩)]
      simp only [if_pos rfl]
      rw [← hfs]
      rw [ih fuel2 (by rw [hfs]; exact List.cons_ne_nil _ _)
        (by simp only [List.length_cons] at hfuel; omega)]
      rfl

/-- A table holds at least its record count under its encoding's
length. -/
theorem encTable_length (rows : List (List (List Char))) :
    rows.length ≤ (encTable rows).length := by
  induction rows with
  | nil => simp [encTable]
  | cons r rs ih =>
    show rs.length + 1 ≤ (encRow r ++ '\n' :: encTable rs).length
    rw [List.length_append, List.length_cons]
    omega

/-- An encoded table parses back exactly, given fuel covering the
record count. -/
theorem parseRowsCsv_enc (rows : List (List (List Char))) :
    ∀ fuel, (∀ r ∈ rows, r ≠ []) → rows.length ≤ fuel →
    parseRowsCsv (encTable rows) fuel = some rows := by
  induction rows with
  | nil =>
    intro fuel _ _
    cases fuel <;> rfl
  | cons r rs ih =>
    intro fuel hne hfuel
    obtain ⟨fuel2, rfl⟩ : ∃ k, fuel = k + 1 :=
      ⟨fuel - 1, by simp only [List.length_cons] at hfuel; omega⟩
    have het : encTable (r :: rs) = encRow r ++ '\n' :: encTable rs := rfl
    rcases hcs : encRow r ++ '\n' :: encTable rs with _ | ⟨c, cs⟩
    · exact absurd hcs (by simp)
    · have hlen := congrArg List.length hcs
      rw [List.length_append, List.length_cons, List.length_cons] at hlen
      rw [het, hcs, parseRowsCsv]
      have hrec : parseRecordCsv (c :: cs) (cs.length + 2) = some (r, encTable rs) := by
        rw [← hcs]
        refine parseRecordCsv_enc r (encTable rs) (cs.length + 2)
          (hne r (List.mem_cons_self r rs)) ?_
        have := encRow_length r
        omega
      rw [hrec]
      show (parseRowsCsv (encTable rs) fuel2).map (fun rs => r :: rs) = some (r :: rs)
      rw [ih fuel2 (fun x hx => hne x (List.mem_cons_of_mem r hx))
        (by simp only [List.length_cons] at hfuel; omega)]
      rfl

/-- A successful digit-run parse forces a nonempty all-digit input. -/
theorem parseNatL_some_shape (cs : List Char) (m : Nat) (h : parseNatL cs = some m) :
    cs.isEmpty = false ∧ cs.all isDigitChar = true := by
  rw [parseNatL] at h
  by_cases hc : (!cs.isEmpty && cs.all isDigitChar) = true
  · rw [Bool.and_eq_true] at hc
    obtain ⟨h1, h2⟩ := hc
    refine ⟨?_, h2⟩
    cases hh : cs.isEmpty with
    | false => rfl
    | true =>
      rw [hh] at h1
      cases h1
  · rw [if_neg hc] at h
    cases h

/-- The ISO rendering of a date is never the empty field. -/
theorem printDate_isEmpty (d : Date) : (printDate d).isEmpty = false := by
  obtain ⟨hy1, _⟩ := parseNatL_some_shape _ _ (parseNatL_padNat 4 d.year)
  rcases hp : padNat 4 d.year with _ | ⟨c0, cs0⟩
  · rw [hp] at hy1
    cases hy1
  · rw [printDate, hp]
    rfl

/-- The ISO rendering of a date is not a numeral (its dashes defeat
numeric inference). -/
theorem parseIntL_printDate (d : Date) : parseIntL (printDate d) = none := by
  obtain ⟨hy1, hy2⟩ := parseNatL_some_shape _ _ (parseNatL_padNat 4 d.year)
  rcases hp : padNat 4 d.year with _ | ⟨c0, cs0⟩
  · rw [hp] at hy1
    cases hy1
  · have hc0 : isDigitChar c0 = true := by
      rw [hp, List.all_cons, Bool.and_eq_true] at hy2
      exact hy2.1
    have hpd : printDate d = c0 :: (cs0 ++ '-' :: (padNat 2 d.month ++ '-' :: padNat 2 d.day)) := by
      rw [printDate, hp]
      rfl
    have hfail : parseNatL (c0 :: (cs0 ++ '-' :: (padNat 2 d.month ++ '-' :: padNat 2 d.day))) = none := by
      rw [parseNatL]
      have hall : (c0 :: (cs0 ++ '-' :: (padNat 2 d.month ++ '-' :: padNat 2 d.day))).all
          isDigitChar = false := by
        cases hq : (c0 :: (cs0 ++ '-' :: (padNat 2 d.month ++ '-' :: padNat 2 d.day))).all
            isDigitChar with
        | false => rfl
        | true =>
          rw [List.all_eq_true] at hq
          have hm := hq '-' (by simp)
          exact absurd hm (by decide)
      rw [hall]
      simp
    rw [hpd, parseIntL, if_neg (digit_ne_minus c0 hc0), hfail]

/-- A rendered number is compatible with a numeric column. -/
theorem okNumField_printIntL (n : Int) : okNumField (printIntL n) = true := by
  rw [okNumField, parseIntL_printIntL]
  simp

/-- A rendered date is incompatible with a numeric column. -/
theorem okNumField_printDate (d : Date) : okNumField (printDate d) = false := by
  rw [okNumField, printDate_isEmpty, parseIntL_printDate]
  rfl

/-- A nonempty non-numeral text field is incompatible with a numeric
column. -/
theorem okNumField_text (s : String) (h1 : s.data.isEmpty = false)
    (h2 : parseIntL s.data = none) : okNumField s.data = false := by
  rw [okNumField, h1, h2]
  rfl

/-- An empty field reads as missing under either column dtype. -/
theorem inferCell_nil (b : Bool) : inferCell b [] = .missing := rfl

/-- A rendered number in a numeric column reads back as itself. -/
theorem inferCell_num (n : Int) : inferCell true (printIntL n) = .num n := by
  have hne : (printIntL n).isEmpty = false := by
    rcases hd : printIntL n with _ | ⟨c, cs⟩
    · exact absurd hd (printIntL_ne_nil n)
    · rfl
  rw [inferCell]
  simp only [hne, Bool.false_eq_true, if_false]
  simp [parseIntL_printIntL]

/-- A nonempty field in an object column reads back as its text. -/
theorem inferCell_text (s : String) (h1 : s.data.isEmpty = false) :
    inferCell false s.data = .str s := by
  rw [inferCell]
  simp only [h1, Bool.false_eq_true, if_false]

/-- Re-reading one exported cell of a canonical, homogeneous non-date
column recovers it: a numbers-only column re-reads numeric, and a text
cell forces its own column to object dtype, under which clean text
round-trips. -/
theorem reread_cell (df : List Row) (proj : Row → Value) (j : Nat)
    (hget : ∀ r' ∈ df, ((rowCells r').map printValue)[j]? = some (printValue (proj r')))
    (hcanon : ∀ r' ∈ df, canonicalCell (proj r') = true)
    (hhom : HomogeneousCol df proj)
    (r : Row) (hr : r ∈ df) :
    inferCell (colNumeric (df.map (fun r' => (rowCells r').map printValue)) j)
      (printValue (proj r)) = proj r := by
  cases hv : proj r with
  | missing => exact inferCell_nil _
  | date d =>
    have hcd := hcanon r hr
    rw [hv] at hcd
    exact absurd hcd Bool.false_ne_true
  | num n =>
    have hnumside : ∀ r' ∈ df, isNumCell (proj r') = true := by
      rcases hhom with hs | hs
      · exact hs
      · exfalso
        have hst := hs r hr
        rw [hv] at hst
        exact absurd hst Bool.false_ne_true
    have hcn : colNumeric (df.map (fun r' => (rowCells r').map printValue)) j = true := by
      rw [colNumeric, List.all_eq_true]
      intro row hrow
      obtain ⟨r', hr', rfl⟩ := List.mem_map.mp hrow
      show (match ((rowCells r').map printValue)[j]? with
        | some cs => okNumField cs
        | none => true) = true
      rw [hget r' hr']
      show okNumField (printValue (proj r')) = true
      have hn := hnumside r' hr'
      cases hv2 : proj r' with
      | num m => exact okNumField_printIntL m
      | missing => rfl
      | str s =>
        rw [hv2] at hn
        exact absurd hn Bool.false_ne_true
      | date d2 =>
        rw [hv2] at hn
        exact absurd hn Bool.false_ne_true
    rw [hcn]
    exact inferCell_num n
  | str s =>
    have hcd := hcanon r hr
    rw [hv] at hcd
    rw [canonicalCell, Bool.and_eq_true] at hcd
    obtain ⟨hs1, hs2⟩ := hcd
    have h1f : s.data.isEmpty = false := by
      cases hh : s.data.isEmpty with
      | false => rfl
      | true =>
        rw [hh] at hs1
        cases hs1
    have hpn : parseIntL s.data = none := Option.isNone_iff_eq_none.mp hs2
    have hcn : colNumeric (df.map (fun r' => (rowCells r').map printValue)) j = false := by
      cases hb : colNumeric (df.map (fun r' => (rowCells r').map printValue)) j with
      | false => rfl
      | true =>
        exfalso
        rw [colNumeric, List.all_eq_true] at hb
        have hthis := hb ((rowCells r).map printValue) (List.mem_map.mpr ⟨r, hr, rfl⟩)
        rw [hget r hr] at hthis
        have hok : okNumField (printValue (proj r)) = true := hthis
        rw [hv] at hok
        have hbad : okNumField s.data = true := hok
        rw [okNumField_text s h1f hpn] at hbad
        exact Bool.false_ne_true hbad
    rw [hcn]
    exact inferCell_text s h1f

/-- Re-reading and re-coercing one exported `claim_date` cell recovers
it: a date's ISO text forces its own column to object dtype and parses
back, a missing date stays missing under either dtype. -/
theorem reread_date (df : List Row) (j : Nat)
    (hget : ∀ r' ∈ df, ((rowCells r').map printValue)[j]? = some (printValue r'.claim_date))
    (hdate : ∀ r' ∈ df, dateCell r'.claim_date = true)
    (r : Row) (hr : r ∈ df) :
    normDate (inferCell (colNumeric (df.map (fun r' => (rowCells r').map printValue)) j)
      (printValue r.claim_date)) = r.claim_date := by
  cases hv : r.claim_date with
  | missing => rfl
  | str s =>
    have hd := hdate r hr
    rw [hv] at hd
    exact absurd hd Bool.false_ne_true
  | num n =>
    have hd := hdate r hr
    rw [hv] at hd
    exact absurd hd Bool.false_ne_true
  | date d =>
    have hd := hdate r hr
    rw [hv] at hd
    have hdo : DateOk d := of_decide_eq_true hd
    have hcn : colNumeric (df.map (fun r' => (rowCells r').map printValue)) j = false := by
      cases hb : colNumeric (df.map (fun r' => (rowCells r').map printValue)) j with
      | false => rfl
      | true =>
        exfalso
        rw [colNumeric, List.all_eq_true] at hb
        have hthis := hb ((rowCells r).map printValue) (List.mem_map.mpr ⟨r, hr, rfl⟩)
        rw [hget r hr] at hthis
        have hok : okNumField (printValue r.claim_date) = true := hthis
        rw [hv] at hok
        have hbad : okNumField (printDate d) = true := hok
        rw [okNumField_printDate d] at hbad
        exact Bool.false_ne_true hbad
    rw [hcn]
    have hne := printDate_isEmpty d
    have hstep : inferCell false (printValue (Value.date d))
        = .str (String.mk (printDate d)) := by
      rw [printValue, inferCell]
      simp only [hne, Bool.false_eq_true, if_false]
    rw [hstep, normDate]
    have hdm : (String.mk (printDate d)).data = printDate d := rfl
    rw [hdm, parseDate_printDate d hdo]

/-- `claim_date` sits third in the required columns: normalizing a
13-cell record touches exactly that cell. -/
theorem normalizeRow_expected (c0 c1 c2 c3 c4 c5 c6 c7 c8 c9 c10 c11 c12 : Value) :
    normalizeRow EXPECTED_COLUMNS [c0, c1, c2, c3, c4, c5, c6, c7, c8, c9, c10, c11, c12]
      = [c0, c1, normDate c2, c3, c4, c5, c6, c7, c8, c9, c10, c11, c12] := by
  rfl

/-- Month-end bin labels are strictly increasing in the month index. -/
theorem idxMonthEnd_lt {i j : Nat} (h : i < j) : idxMonthEnd i < idxMonthEnd j := by
  rcases Nat.lt_or_ge (i / 12) (j / 12) with h2 | h2
  · exact Or.inl h2
  · have h3 : i / 12 = j / 12 := by omega
    have h4 : i % 12 + 1 < j % 12 + 1 := by omega
    exact Or.inr ⟨h3, Or.inl h4⟩

/- ### Claim theorems: filter engine and totals -/

/-- Claim C4: applying the filter engine with an empty region set, an
empty specialty set, and no date range returns exactly the input rows
in the input order (empty multiselections are pass-through). -/
theorem filter_pass_through (df : List Row) :
    filtered_df df ⟨[], [], none⟩ = df := rfl

/-- Claim C5: with a bounded date range, the filter result is the
single-pass filter by the conjunction of the region, specialty and date
predicates (hence preserves original row order), and the date predicate
holds exactly when the row's `claim_date` is a valid (non-missing) date
lying between `s` and `e` inclusive — a missing date never matches. -/
theorem filter_conjunction (df : List Row) (rs ss : List String) (s e : Date) :
    filtered_df df ⟨rs, ss, some (s, e)⟩ =
      df.filter (fun r =>
        (rs.isEmpty || valueMem r.Region rs) &&
        (ss.isEmpty || valueMem r.Provider_Specialty ss) &&
        betweenDate r.claim_date s e)
    ∧ (∀ v, betweenDate v s e = true ↔ ∃ d, v = .date d ∧ s ≤ d ∧ d ≤ e) := by
  constructor
  · cases hrs : rs.isEmpty <;> cases hss : ss.isEmpty <;>
      simp [filtered_df, hrs, hss, List.filter_filter] <;>
      · apply List.filter_congr
        intro a _
        cases betweenDate a.claim_date s e <;> cases valueMem a.Region rs <;>
          cases valueMem a.Provider_Specialty ss <;> simp
  · intro v
    constructor
    · intro h
      match v with
      | .date d =>
        simp only [betweenDate, Bool.and_eq_true, decide_eq_true_eq] at h
        exact ⟨d, rfl, h.1, h.2⟩
      | .str s0 => simp [betweenDate] at h
      | .num n => simp [betweenDate] at h
      | .missing => simp [betweenDate] at h
    · rintro ⟨d, rfl, h1, h2⟩
      simp [betweenDate, h1, h2]

/-- Claim C5 witness: the conjunction form and the date-predicate
characterization evaluated at a concrete dataset and range. -/
theorem filter_conjunction_witness :
    (filtered_df [] ⟨["North"], [], some (⟨2025, 1, 1⟩, ⟨2025, 2, 15⟩)⟩ =
      List.filter (fun r =>
        ((["North"] : List String).isEmpty || valueMem r.Region ["North"]) &&
        (([] : List String).isEmpty || valueMem r.Provider_Specialty []) &&
        betweenDate r.claim_date ⟨2025, 1, 1⟩ ⟨2025, 2, 15⟩) [])
    ∧ (∀ v, betweenDate v ⟨2025, 1, 1⟩ ⟨2025, 2, 15⟩ = true ↔
        ∃ d, v = .date d ∧ (⟨2025, 1, 1⟩ : Date) ≤ d ∧ d ≤ ⟨2025, 2, 15⟩) :=
  filter_conjunction [] ["North"] [] ⟨2025, 1, 1⟩ ⟨2025, 2, 15⟩

/-- Claim C8: the totals of the empty filtered dataset are all zero:
count 0 and all three sums 0 (no failure, no undefined value). -/
theorem totals_empty :
    total_claims [] = 0 ∧ total_claimed [] = 0 ∧
    total_approved [] = 0 ∧ total_denied [] = 0 := by
  refine ⟨rfl, rfl, rfl, rfl⟩

/-- Claim C10: the claim count counts every row, including rows whose
amount cells are missing, while each amount sum equals the sum taken
over only the rows where that amount is present (missing cells are
skipped, contributing 0). -/
theorem totals_skip_missing (df : List Row) :
    total_claims df = df.length
    ∧ total_claimed df =
        ((df.filter (fun r => isNum r.Claimed_Amount)).map
          (fun r => numVal r.Claimed_Amount)).sum
    ∧ total_approved df =
        ((df.filter (fun r => isNum r.Approved_Amount)).map
          (fun r => numVal r.Approved_Amount)).sum
    ∧ total_denied df =
        ((df.filter (fun r => isNum r.Denied_amount)).map
          (fun r => numVal r.Denied_amount)).sum := by
  refine ⟨rfl, ?_, ?_, ?_⟩
  · refine (sum_map_filter_of_vanish df _ _ ?_).symm
    intro r hr
    cases hc : r.Claimed_Amount <;> simp [numVal, hc] <;> simp [isNum, hc] at hr
  · refine (sum_map_filter_of_vanish df _ _ ?_).symm
    intro r hr
    cases hc : r.Approved_Amount <;> simp [numVal, hc] <;> simp [isNum, hc] at hr
  · refine (sum_map_filter_of_vanish df _ _ ?_).symm
    intro r hr
    cases hc : r.Denied_amount <;> simp [numVal, hc] <;> simp [isNum, hc] at hr

/- ### Claim theorems: load_data (schema validation and date coercion) -/

/-- `normDate` always yields a date or the missing marker. -/
theorem normDate_date_or_missing (v : Value) :
    (∃ d, normDate v = .date d) ∨ normDate v = .missing := by
  cases v with
  | str s =>
    cases h : parseDate s.data with
    | some d => exact .inl ⟨d, by simp [normDate, h]⟩
    | none => exact .inr (by simp [normDate, h])
  | date d => exact .inl ⟨d, rfl⟩
  | num n => exact .inr rfl
  | missing => exact .inr rfl

/-- Claim C1: a table missing at least one required column makes
`load_data` fail with an error listing exactly the missing columns (all
of them and no others) and producing no dataset; a table with all 13
required columns loads successfully, returning the table unchanged
except that the `claim_date` column is date-coerced. -/
theorem load_data_schema (t : RawTable) :
    ((∃ c ∈ EXPECTED_COLUMNS, c ∉ t.cols) →
      ∃ m, load_data t = .error m ∧ m ≠ [] ∧
        (∀ c, c ∈ m ↔ (c ∈ EXPECTED_COLUMNS ∧ c ∉ t.cols)))
    ∧ ((∀ c ∈ EXPECTED_COLUMNS, c ∈ t.cols) → WellFormed t →
      ∃ t', load_data t = .ok t' ∧ t'.cols = t.cols ∧
        t'.rows.length = t.rows.length ∧
        ∀ i j v, cellAt t i j = some v →
          cellAt t' i j =
            some (if t.cols[j]? = some "claim_date" then normDate v else v)) := by
  constructor
  · rintro ⟨c, hc, hnc⟩
    have hM : c ∈ EXPECTED_COLUMNS.filter (fun c => !t.cols.contains c) := by
      simp [List.mem_filter, hc, hnc]
    have hne : (EXPECTED_COLUMNS.filter (fun c => !t.cols.contains c)).isEmpty = false := by
      cases hE : (EXPECTED_COLUMNS.filter (fun c => !t.cols.contains c)).isEmpty
      · rfl
      · rw [List.isEmpty_iff] at hE
        rw [hE] at hM
        cases hM
    refine ⟨EXPECTED_COLUMNS.filter (fun c => !t.cols.contains c), ?_, ?_, ?_⟩
    · simp only [load_data, hne, Bool.false_eq_true, if_false]
    · intro h
      rw [h] at hM
      cases hM
    · intro c'
      simp [List.mem_filter]
  · intro hall hwf
    have hne : (EXPECTED_COLUMNS.filter (fun c => !t.cols.contains c)).isEmpty = true := by
      rw [List.isEmpty_iff, List.filter_eq_nil_iff]
      intro a ha
      simp [hall a ha]
    have hcd : t.cols.contains "claim_date" = true := by
      have : "claim_date" ∈ t.cols := hall "claim_date" (by simp [EXPECTED_COLUMNS])
      simpa using this
    refine ⟨⟨t.cols, t.rows.map (normalizeRow t.cols)⟩, ?_, rfl, by simp, ?_⟩
    · simp only [load_data, hne, hcd, if_true]
    · intro i j v hv
      rw [cellAt, Option.bind_eq_some] at hv
      obtain ⟨row, hrow, hcell⟩ := hv
      have hmem : row ∈ t.rows := List.getElem?_mem hrow
      have hlen : row.length = t.cols.length := hwf row hmem
      have hj : j < row.length := by
        by_contra hge
        rw [List.getElem?_eq_none (by omega)] at hcell
        cases hcell
      have hjc : j < t.cols.length := by omega
      have hcj : t.cols[j]? = some (t.cols.get ⟨j, hjc⟩) := by
        rw [List.getElem?_eq_getElem hjc]
        rfl
      have hzip : (t.cols.zip row)[j]? = some (t.cols.get ⟨j, hjc⟩, v) := by
        rw [List.getElem?_zip_eq_some]
        exact ⟨hcj, hcell⟩
      rw [cellAt]
      simp only [List.getElem?_map, hrow, Option.map_some', Option.some_bind]
      rw [normalizeRow, List.getElem?_map, hzip, Option.map_some']
      rw [hcj]
      by_cases hcc : t.cols.get ⟨j, hjc⟩ = "claim_date"
      · simp [hcc]
      · simp [hcc]

/-- Claim C9: for every table that passes schema validation, date
normalization never fails the load; after it, every `claim_date` cell is
either a valid date or the missing marker — no other representation —
with parsable strings becoming dates and unparsable or missing values
becoming the missing marker. -/
theorem date_normalization_total (t : RawTable) :
    ((∀ c ∈ EXPECTED_COLUMNS, c ∈ t.cols) → ∃ t', load_data t = .ok t')
    ∧ (∀ t', load_data t = .ok t' → ∀ row ∈ t'.rows, ∀ (j : Nat) (v : Value),
        t.cols[j]? = some "claim_date" → row[j]? = some v →
        (∃ d, v = .date d) ∨ v = .missing)
    ∧ (∀ s d, parseDate s.data = some d → normDate (.str s) = .date d)
    ∧ (∀ s, parseDate s.data = none → normDate (.str s) = .missing)
    ∧ normDate .missing = .missing := by
  refine ⟨?_, ?_, ?_, ?_, rfl⟩
  · intro hall
    have hne : (EXPECTED_COLUMNS.filter (fun c => !t.cols.contains c)).isEmpty = true := by
      rw [List.isEmpty_iff, List.filter_eq_nil_iff]
      intro a ha
      simp [hall a ha]
    have hcd : t.cols.contains "claim_date" = true := by
      have : "claim_date" ∈ t.cols := hall "claim_date" (by simp [EXPECTED_COLUMNS])
      simpa using this
    exact ⟨⟨t.cols, t.rows.map (normalizeRow t.cols)⟩,
      by simp only [load_data, hne, hcd, if_true]⟩
  · intro t' hok row hrow j v hcolj hcell
    have hcd : "claim_date" ∈ t.cols := by
      have := List.getElem?_mem hcolj
      exact this
    have hcdb : t.cols.contains "claim_date" = true := by simpa using hcd
    rw [load_data] at hok
    by_cases hne : (EXPECTED_COLUMNS.filter (fun c => !t.cols.contains c)).isEmpty
    · rw [if_pos hne, hcdb, if_pos rfl] at hok
      cases hok
      simp only [List.mem_map] at hrow
      obtain ⟨row0, _, hr0⟩ := hrow
      subst hr0
      rw [normalizeRow, List.getElem?_map] at hcell
      cases hzip : (t.cols.zip row0)[j]? with
      | none => rw [hzip] at hcell; cases hcell
      | some p =>
        rw [hzip] at hcell
        rw [List.getElem?_zip_eq_some] at hzip
        have hp1 : p.1 = "claim_date" := by
          have := hzip.1
          rw [hcolj] at this
          exact (Option.some_inj.mp this).symm
        simp only [Option.map_some', Option.some_inj] at hcell
        rw [hp1, if_pos rfl] at hcell
        rcases normDate_date_or_missing p.2 with ⟨d, hd⟩ | hm
        · exact .inl ⟨d, by rw [← hcell, hd]⟩
        · exact .inr (by rw [← hcell, hm])
    · rw [if_neg hne] at hok
      cases hok
  · intro s d h
    simp [normDate, h]
  · intro s h
    simp [normDate, h]

/- ### Claim theorems: top denial reasons -/

/-- Summing `Denied_amount` over the in-place-filled rows with a given
reason equals summing it over the original rows whose filled reason is
that value (the fill touches no amount cell). -/
theorem sumDenied_fillna (df : List Row) (k : Value) :
    sumDenied ((fillnaReason df).filter (fun r => decide (r.Denial_reason = k)))
      = sumDenied (df.filter (fun r => decide (fillUnknown r.Denial_reason = k))) := by
  rw [fillnaReason, List.filter_map, sumDenied, sumDenied, List.map_map]
  rfl

/-- The summary half of `denial_summary`, unfolded. -/
theorem denial_summary_snd (df : List Row) :
    (denial_summary df).2 = (isortBy (fun a b : Value × Int => decide (b.2 ≤ a.2))
      ((sortKeys (firstDedup ((fillnaReason df).map (fun r => r.Denial_reason)))).map
        (fun k => (k, sumDenied ((fillnaReason df).filter
          (fun r => decide (r.Denial_reason = k))))))).take 10 := rfl

/-- The amount-descending order is total. -/
theorem amtLe_total (a b : Value × Int) :
    decide (b.2 ≤ a.2) = true ∨ decide (a.2 ≤ b.2) = true := by
  rcases Int.le_total b.2 a.2 with h | h
  · exact .inl (decide_eq_true h)
  · exact .inr (decide_eq_true h)

/-- The amount-descending order is transitive. -/
theorem amtLe_trans (a b c : Value × Int)
    (h1 : decide (b.2 ≤ a.2) = true) (h2 : decide (c.2 ≤ b.2) = true) :
    decide (c.2 ≤ a.2) = true :=
  decide_eq_true (Int.le_trans (of_decide_eq_true h2) (of_decide_eq_true h1))

/-- Claim C3: the top-denial-reasons summary fills a missing
`Denial_reason` with the literal "Unknown" (an empty CSV field is read
as missing), groups by filled reason summing `Denied_amount`, sorts
descending by summed amount and returns at most 10 groups; with more
than 10 distinct reasons it returns exactly 10, the first entry's sum
is greatest, keys are distinct, and every key is a reason of the
dataset. -/
theorem denial_summary_spec (df : List Row) :
    (denial_summary df).2.length = min 10 (distinctReasons df)
    ∧ (10 < distinctReasons df → (denial_summary df).2.length = 10)
    ∧ (∀ p ∈ (denial_summary df).2,
        p.2 = sumDenied (df.filter (fun r => decide (fillUnknown r.Denial_reason = p.1))))
    ∧ (denial_summary df).2.Pairwise (fun a b => b.2 ≤ a.2)
    ∧ (∀ p ∈ (denial_summary df).2, ∀ q, (denial_summary df).2.head? = some q → p.2 ≤ q.2)
    ∧ ((denial_summary df).2.map (fun p => p.1)).Nodup
    ∧ (∀ p ∈ (denial_summary df).2,
        p.1 ∈ (fillnaReason df).map (fun r => r.Denial_reason)) := by
  have hperm : (isortBy (fun a b : Value × Int => decide (b.2 ≤ a.2))
      ((sortKeys (firstDedup ((fillnaReason df).map (fun r => r.Denial_reason)))).map
        (fun k => (k, sumDenied ((fillnaReason df).filter
          (fun r => decide (r.Denial_reason = k))))))).Perm
      ((sortKeys (firstDedup ((fillnaReason df).map (fun r => r.Denial_reason)))).map
        (fun k => (k, sumDenied ((fillnaReason df).filter
          (fun r => decide (r.Denial_reason = k)))))) := perm_isortBy _ _
  have hkeysperm : (sortKeys (firstDedup ((fillnaReason df).map
      (fun r => r.Denial_reason)))).Perm
      (firstDedup ((fillnaReason df).map (fun r => r.Denial_reason))) := perm_isortBy _ _
  have hmemgrouped : ∀ p ∈ (denial_summary df).2,
      ∃ k ∈ sortKeys (firstDedup ((fillnaReason df).map (fun r => r.Denial_reason))),
        p = (k, sumDenied ((fillnaReason df).filter
          (fun r => decide (r.Denial_reason = k)))) := by
    intro p hp
    rw [denial_summary_snd] at hp
    have hp2 := hperm.mem_iff.mp (List.mem_of_mem_take hp)
    obtain ⟨k, hk, hpk⟩ := List.mem_map.mp hp2
    exact ⟨k, hk, hpk.symm⟩
  have hlen : (denial_summary df).2.length = min 10 (distinctReasons df) := by
    rw [denial_summary_snd, List.length_take, hperm.length_eq, List.length_map,
      hkeysperm.length_eq]
    rfl
  have hsorted : (denial_summary df).2.Pairwise (fun a b => b.2 ≤ a.2) := by
    rw [denial_summary_snd]
    refine List.Pairwise.sublist (List.take_sublist 10 _) ?_
    refine (pairwise_isortBy _ amtLe_total amtLe_trans _).imp ?_
    intro a b h
    exact of_decide_eq_true h
  refine ⟨hlen, ?_, ?_, hsorted, ?_, ?_, ?_⟩
  · intro h
    omega
  · intro p hp
    obtain ⟨k, _, rfl⟩ := hmemgrouped p hp
    exact sumDenied_fillna df k
  · intro p hp q hq
    cases hval : (denial_summary df).2 with
    | nil =>
      rw [hval] at hq
      cases hq
    | cons a rest =>
      rw [hval] at hq
      have hqa : q = a := by
        rw [List.head?_cons] at hq
        exact (Option.some_inj.mp hq).symm
      rw [hval] at hp hsorted
      rcases List.pairwise_cons.mp hsorted with ⟨ha, _⟩
      rcases List.mem_cons.mp hp with rfl | hp
      · rw [hqa]
      · rw [hqa]
        exact ha p hp
  · have hkeysnodup : (sortKeys (firstDedup ((fillnaReason df).map
        (fun r => r.Denial_reason)))).Nodup :=
      hkeysperm.nodup_iff.mpr (nodup_firstDedup _)
    have hfst : ((sortKeys (firstDedup ((fillnaReason df).map
        (fun r => r.Denial_reason)))).map
        (fun k => (k, sumDenied ((fillnaReason df).filter
          (fun r => decide (r.Denial_reason = k)))))).map (fun p => p.1)
        = sortKeys (firstDedup ((fillnaReason df).map (fun r => r.Denial_reason))) := by
      rw [List.map_map]
      exact List.map_id _
    rw [denial_summary_snd]
    refine List.Nodup.sublist (List.Sublist.map _ (List.take_sublist 10 _)) ?_
    refine ((hperm.map (fun p => p.1)).nodup_iff).mpr ?_
    rw [hfst]
    exact hkeysnodup
  · intro p hp
    obtain ⟨k, hk, rfl⟩ := hmemgrouped p hp
    exact (mem_firstDedup _ _).mp (hkeysperm.mem_iff.mp hk)

/- ### Claim theorems: purity of the aggregates -/

/-- The monthly trend is unchanged by the in-place reason fill (it
reads only `claim_date` and `Denied_amount`). -/
theorem trend_fillna (df : List Row) : trend (fillnaReason df) = trend df := by
  have h1 : (fillnaReason df).filterMap rowMonth = df.filterMap rowMonth := by
    rw [fillnaReason, List.filterMap_map]
    rfl
  have h2 : ∀ m : Nat,
      sumDenied ((fillnaReason df).filter (fun r => decide (rowMonth r = some m)))
        = sumDenied (df.filter (fun r => decide (rowMonth r = some m))) := by
    intro m
    rw [fillnaReason, List.filter_map, sumDenied, sumDenied, List.map_map]
    rfl
  rw [trend, trend, h1]
  cases df.filterMap rowMonth with
  | nil => rfl
  | cons i is => simp only [h2]

/-- Claim C6 counterexample: running the top-denial-reasons aggregate
on a filtered dataset holding one record with a missing `Denial_reason`
hands back a mutated dataset — the missing reason is now the string
"Unknown" — so the five aggregates are not all mutation-free. -/
theorem denial_summary_mutates :
    (denial_summary [trendRow]).1 ≠ [trendRow] := by decide

/-- Claim C6 (amended): totals, status breakdown, denied-by-region and
monthly trend leave the filtered dataset untouched (formally: they are
functions of it, and all four are invariant under the one mutation the
fifth performs), but the top-denial-reasons aggregate mutates the
filtered dataset in place, rewriting exactly the missing `Denial_reason`
cells to "Unknown" and nothing else; a dataset with no missing reason
comes back unchanged. The canonical session dataset, filtered by copy,
is never mutated. -/
theorem aggregates_frame (df : List Row) :
    (denial_summary df).1
      = df.map (fun r => { r with Denial_reason := fillUnknown r.Denial_reason })
    ∧ ((∀ r ∈ df, r.Denial_reason ≠ .missing) → (denial_summary df).1 = df)
    ∧ total_claims (fillnaReason df) = total_claims df
    ∧ total_claimed (fillnaReason df) = total_claimed df
    ∧ total_approved (fillnaReason df) = total_approved df
    ∧ total_denied (fillnaReason df) = total_denied df
    ∧ trend (fillnaReason df) = trend df
    ∧ denied_by_region (fillnaReason df) = denied_by_region df
    ∧ status_chart (fillnaReason df) = status_chart df := by
  refine ⟨rfl, ?_, ?_, ?_, ?_, ?_, trend_fillna df, ?_, ?_⟩
  · intro h
    show fillnaReason df = df
    rw [fillnaReason]
    have hpt : ∀ r ∈ df, { r with Denial_reason := fillUnknown r.Denial_reason } = r := by
      intro r hr
      have hne := h r hr
      cases hd : r.Denial_reason with
      | missing => exact absurd hd hne
      | str s =>
        have hfe : fillUnknown (Value.str s) = Value.str s := rfl
        rw [hfe, ← hd]
      | num n =>
        have hfe : fillUnknown (Value.num n) = Value.num n := rfl
        rw [hfe, ← hd]
      | date d =>
        have hfe : fillUnknown (Value.date d) = Value.date d := rfl
        rw [hfe, ← hd]
    exact (List.map_congr_left hpt).trans (List.map_id df)
  · rw [total_claims, total_claims, fillnaReason, List.length_map]
  · rw [total_claimed, total_claimed, fillnaReason, List.map_map]
    rfl
  · rw [total_approved, total_approved, fillnaReason, List.map_map]
    rfl
  · rw [total_denied, total_denied, fillnaReason, List.map_map]
    rfl
  · have hreg : (fillnaReason df).map (fun r => r.Region) = df.map (fun r => r.Region) := by
      rw [fillnaReason, List.map_map]
      rfl
    have hsum : ∀ k, sumDenied ((fillnaReason df).filter (fun r => decide (r.Region = k)))
        = sumDenied (df.filter (fun r => decide (r.Region = k))) := by
      intro k
      rw [fillnaReason, List.filter_map, sumDenied, sumDenied, List.map_map]
      rfl
    rw [denied_by_region, denied_by_region, hreg]
    simp only [hsum]
  · have hst : (fillnaReason df).map (fun r => r.Claim_Status)
        = df.map (fun r => r.Claim_Status) := by
      rw [fillnaReason, List.map_map]
      rfl
    have hcnt : ∀ k, ((fillnaReason df).filter (fun r => decide (r.Claim_Status = k))).length
        = (df.filter (fun r => decide (r.Claim_Status = k))).length := by
      intro k
      rw [fillnaReason, List.filter_map, List.length_map]
      rfl
    rw [status_chart, status_chart, hst]
    simp only [hcnt]

/- ### Claim theorems: monthly denial trend -/

/-- Claim C2 (amended): the monthly trend drops rows with a missing
date, bins every row with a valid date into the bucket of its calendar
month — labeled by that month's LAST day, as `freq="M"` bins are —
holding the sum of `Denied_amount` over the rows of that month; buckets
are strictly ascending by month, and the bucket values sum to the total
`Denied_amount` over all rows with a valid date. -/
theorem trend_monthly (df : List Row) :
    (trend df).Pairwise (fun a b => a.1 < b.1)
    ∧ (∀ p ∈ trend df, p.1.day = daysInMonth p.1.year p.1.month)
    ∧ (∀ r ∈ df, ∀ d, r.claim_date = .date d →
        ∃ p ∈ trend df, p.1 = idxMonthEnd (monthIdx d) ∧
          p.2 = sumDenied (df.filter (fun r' => decide (rowMonth r' = some (monthIdx d)))))
    ∧ (∀ d, DateOk d → (idxMonthEnd (monthIdx d)).year = d.year ∧
        (idxMonthEnd (monthIdx d)).month = d.month)
    ∧ ((trend df).map (fun p => p.2)).sum =
        sumDenied (df.filter (fun r => (rowMonth r).isSome)) := by
  have hlabel : ∀ d, DateOk d → (idxMonthEnd (monthIdx d)).year = d.year ∧
      (idxMonthEnd (monthIdx d)).month = d.month := by
    intro d hd
    obtain ⟨h1, h2, _, _⟩ := hd
    constructor
    · show (d.year * 12 + (d.month - 1)) / 12 = d.year
      omega
    · show (d.year * 12 + (d.month - 1)) % 12 + 1 = d.month
      omega
  cases hms : df.filterMap rowMonth with
  | nil =>
    have htr : trend df = [] := by simp only [trend, hms]
    have hnil : df.filter (fun r => (rowMonth r).isSome) = [] := by
      rw [List.filter_eq_nil_iff]
      intro r hr hs
      obtain ⟨n, hn⟩ := Option.isSome_iff_exists.mp hs
      have hmem : n ∈ df.filterMap rowMonth := List.mem_filterMap.mpr ⟨r, hr, hn⟩
      rw [hms] at hmem
      cases hmem
    refine ⟨by rw [htr]; exact List.Pairwise.nil, ?_, ?_, hlabel, ?_⟩
    · intro p hp
      rw [htr] at hp
      cases hp
    · intro r hr d hd
      exfalso
      have hmem : monthIdx d ∈ df.filterMap rowMonth :=
        List.mem_filterMap.mpr ⟨r, hr, by simp [rowMonth, validDate, hd]⟩
      rw [hms] at hmem
      cases hmem
    · rw [htr, hnil]
      rfl
  | cons i is =>
    have hlo := foldl_min_le is i
    have hhi := le_foldl_max is i
    have hbound : ∀ x ∈ df.filterMap rowMonth,
        is.foldl min i ≤ x ∧ x ≤ is.foldl max i := by
      rw [hms]
      intro x hx
      rcases List.mem_cons.mp hx with rfl | hx
      · exact ⟨hlo.1, hhi.1⟩
      · exact ⟨hlo.2 x hx, hhi.2 x hx⟩
    have htr : trend df = (List.range (is.foldl max i + 1 - is.foldl min i)).map (fun k =>
        (idxMonthEnd (is.foldl min i + k),
         sumDenied (df.filter (fun r =>
           decide (rowMonth r = some (is.foldl min i + k)))))) := by
      simp only [trend, hms]
    refine ⟨?_, ?_, ?_, hlabel, ?_⟩
    · rw [htr, List.pairwise_map]
      refine (List.pairwise_lt_range _).imp ?_
      intro a b h
      show idxMonthEnd (is.foldl min i + a) < idxMonthEnd (is.foldl min i + b)
      exact idxMonthEnd_lt (by omega)
    · intro p hp
      rw [htr] at hp
      obtain ⟨k, _, rfl⟩ := List.mem_map.mp hp
      rfl
    · intro r hr d hd
      have hmem : monthIdx d ∈ df.filterMap rowMonth :=
        List.mem_filterMap.mpr ⟨r, hr, by simp [rowMonth, validDate, hd]⟩
      have hb := hbound _ hmem
      refine ⟨(idxMonthEnd (monthIdx d), sumDenied (df.filter (fun r' =>
        decide (rowMonth r' = some (monthIdx d))))), ?_, rfl, rfl⟩
      rw [htr]
      apply List.mem_map.mpr
      refine ⟨monthIdx d - is.foldl min i, List.mem_range.mpr (by omega), ?_⟩
      have heq : is.foldl min i + (monthIdx d - is.foldl min i) = monthIdx d := by omega
      rw [heq]
    · have hnd : ((List.range (is.foldl max i + 1 - is.foldl min i)).map
          (fun k => is.foldl min i + k)).Nodup := by
        refine (List.nodup_range _).map ?_
        intro a b hab
        have hab2 : is.foldl min i + a = is.foldl min i + b := hab
        omega
      have hcov : ∀ r ∈ df, ∀ n, rowMonth r = some n →
          n ∈ (List.range (is.foldl max i + 1 - is.foldl min i)).map
            (fun k => is.foldl min i + k) := by
        intro r hr n hn
        have hmem : n ∈ df.filterMap rowMonth := List.mem_filterMap.mpr ⟨r, hr, hn⟩
        have hb := hbound _ hmem
        apply List.mem_map.mpr
        refine ⟨n - is.foldl min i, List.mem_range.mpr (by omega), ?_⟩
        show is.foldl min i + (n - is.foldl min i) = n
        omega
      have hpart := sum_fiber_partition df rowMonth (fun r => numVal r.Denied_amount)
        ((List.range (is.foldl max i + 1 - is.foldl min i)).map (fun k => is.foldl min i + k))
        hnd hcov
      rw [List.map_map] at hpart
      rw [htr, List.map_map]
      exact hpart

/-- Claim C2 counterexample: a single record dated 2025-01-15 with
denied amount 5 produces the one bucket labeled 2025-01-31 — the month's
last day — refuting the claim that buckets are labeled by the month's
first day. -/
theorem trend_label_not_first_day :
    trend [trendRow] = [(⟨2025, 1, 31⟩, 5)]
    ∧ (⟨2025, 1, 31⟩ : Date).day ≠ 1 := by
  constructor
  · rfl
  · decide

/- ### Claim theorem: CSV export round trip -/

/-- Claim C7 (amended): exporting a filtered table to CSV (header row,
one line per record, standard escaping, no index column) and re-parsing
the payload through `pd.read_csv` and the schema validator succeeds and
yields row-for-row identical values, provided the table's columns are
homogeneous (each non-date column all numbers-or-missing or all
text-or-missing, as loaded columns are) and its text cells are nonempty
non-numeral strings with `claim_date` cells coerced — the restriction
the counterexample forces: a numeral text cell alone in its column
re-parses as a number. -/
theorem export_roundtrip (df : List Row)
    (h : ∀ r ∈ df, canonicalRow r = true)
    (hc : HomogeneousCol df (fun r => r.ICD10_Code)
      ∧ HomogeneousCol df (fun r => r.CPT_Code)
      ∧ HomogeneousCol df (fun r => r.Patient_Age)
      ∧ HomogeneousCol df (fun r => r.Gender)
      ∧ HomogeneousCol df (fun r => r.Region)
      ∧ HomogeneousCol df (fun r => r.Provider_Specialty)
      ∧ HomogeneousCol df (fun r => r.Hospital_Type)
      ∧ HomogeneousCol df (fun r => r.Claim_Status)
      ∧ HomogeneousCol df (fun r => r.Claimed_Amount)
      ∧ HomogeneousCol df (fun r => r.Approved_Amount)
      ∧ HomogeneousCol df (fun r => r.Denied_amount)
      ∧ HomogeneousCol df (fun r => r.Denial_reason)) :
    load_from_csv (to_csv df) = .ok ⟨EXPECTED_COLUMNS, df.map rowCells⟩ := by
  have hne : ∀ x ∈ (EXPECTED_COLUMNS.map (fun c => c.data))
      :: df.map (fun r => (rowCells r).map printValue), x ≠ [] := by
    intro x hx
    rcases List.mem_cons.mp hx with rfl | hx
    · simp [EXPECTED_COLUMNS]
    · obtain ⟨r, _, rfl⟩ := List.mem_map.mp hx
      simp [rowCells]
  have hfuel : ((EXPECTED_COLUMNS.map (fun c => c.data))
      :: df.map (fun r => (rowCells r).map printValue)).length
      ≤ (encTable ((EXPECTED_COLUMNS.map (fun c => c.data))
        :: df.map (fun r => (rowCells r).map printValue))).length + 1 := by
    have := encTable_length ((EXPECTED_COLUMNS.map (fun c => c.data))
      :: df.map (fun r => (rowCells r).map printValue))
    omega
  have hparse := parseRowsCsv_enc ((EXPECTED_COLUMNS.map (fun c => c.data))
      :: df.map (fun r => (rowCells r).map printValue))
    ((encTable ((EXPECTED_COLUMNS.map (fun c => c.data))
      :: df.map (fun r => (rowCells r).map printValue))).length + 1) hne hfuel
  have hread : read_csv (to_csv df) = some ⟨EXPECTED_COLUMNS,
      (df.map (fun r => (rowCells r).map printValue)).map (fun row =>
        idxMap (fun j cs => inferCell
          (colNumeric (df.map (fun r => (rowCells r).map printValue)) j) cs) 0 row)⟩ := by
    have hdata : (to_csv df).data = encTable ((EXPECTED_COLUMNS.map (fun c => c.data))
        :: df.map (fun r => (rowCells r).map printValue)) := rfl
    rw [read_csv, hdata, hparse]
    have hcols : (EXPECTED_COLUMNS.map (fun c => c.data)).map (fun cs => String.mk cs)
        = EXPECTED_COLUMNS := rfl
    show some (⟨(EXPECTED_COLUMNS.map (fun c => c.data)).map (fun cs => String.mk cs),
      (df.map (fun r => (rowCells r).map printValue)).map (fun row =>
        idxMap (fun j cs => inferCell
          (colNumeric (df.map (fun r => (rowCells r).map printValue)) j) cs) 0 row)⟩
      : RawTable) = _
    rw [hcols]
  rw [load_from_csv, hread]
  show load_data ⟨EXPECTED_COLUMNS,
    (df.map (fun r => (rowCells r).map printValue)).map (fun row =>
      idxMap (fun j cs => inferCell
        (colNumeric (df.map (fun r => (rowCells r).map printValue)) j) cs) 0 row)⟩ = _
  have hval : (EXPECTED_COLUMNS.filter
      (fun c => !(EXPECTED_COLUMNS.contains c))).isEmpty = true := by decide
  have hcd : EXPECTED_COLUMNS.contains "claim_date" = true := by decide
  rw [load_data]
  simp only [hval, hcd, if_true]
  have hsplit : ∀ r' ∈ df, dateCell r'.claim_date = true
      ∧ canonicalCell r'.ICD10_Code = true ∧ canonicalCell r'.CPT_Code = true
      ∧ canonicalCell r'.Patient_Age = true ∧ canonicalCell r'.Gender = true
      ∧ canonicalCell r'.Region = true ∧ canonicalCell r'.Provider_Specialty = true
      ∧ canonicalCell r'.Hospital_Type = true ∧ canonicalCell r'.Claim_Status = true
      ∧ canonicalCell r'.Claimed_Amount = true ∧ canonicalCell r'.Approved_Amount = true
      ∧ canonicalCell r'.Denied_amount = true ∧ canonicalCell r'.Denial_reason = true := by
    intro r' hr'
    have hcr := h r' hr'
    simp only [canonicalRow, Bool.and_eq_true] at hcr
    obtain ⟨⟨⟨⟨⟨⟨⟨⟨⟨⟨⟨⟨hdt, h0⟩, h1⟩, h3⟩, h4⟩, h5⟩, h6⟩, h7⟩, h8⟩, h9⟩, h10⟩, h11⟩, h12⟩ := hcr
    exact ⟨hdt, h0, h1, h3, h4, h5, h6, h7, h8, h9, h10, h11, h12⟩
  have hrows2 : ((df.map (fun r => (rowCells r).map printValue)).map (fun row =>
      idxMap (fun j cs => inferCell
        (colNumeric (df.map (fun r => (rowCells r).map printValue)) j) cs) 0 row)).map
      (normalizeRow EXPECTED_COLUMNS) = df.map rowCells := by
    rw [List.map_map, List.map_map]
    apply List.map_congr_left
    intro r hr
    show normalizeRow EXPECTED_COLUMNS
      [inferCell (colNumeric (df.map (fun r' => (rowCells r').map printValue)) 0)
         (printValue r.ICD10_Code),
       inferCell (colNumeric (df.map (fun r' => (rowCells r').map printValue)) 1)
         (printValue r.CPT_Code),
       inferCell (colNumeric (df.map (fun r' => (rowCells r').map printValue)) 2)
         (printValue r.claim_date),
       inferCell (colNumeric (df.map (fun r' => (rowCells r').map printValue)) 3)
         (printValue r.Patient_Age),
       inferCell (colNumeric (df.map (fun r' => (rowCells r').map printValue)) 4)
         (printValue r.Gender),
       inferCell (colNumeric (df.map (fun r' => (rowCells r').map printValue)) 5)
         (printValue r.Region),
       inferCell (colNumeric (df.map (fun r' => (rowCells r').map printValue)) 6)
         (printValue r.Provider_Specialty),
       inferCell (colNumeric (df.map (fun r' => (rowCells r').map printValue)) 7)
         (printValue r.Hospital_Type),
       inferCell (colNumeric (df.map (fun r' => (rowCells r').map printValue)) 8)
         (printValue r.Claim_Status),
       inferCell (colNumeric (df.map (fun r' => (rowCells r').map printValue)) 9)
         (printValue r.Claimed_Amount),
       inferCell (colNumeric (df.map (fun r' => (rowCells r').map printValue)) 10)
         (printValue r.Approved_Amount),
       inferCell (colNumeric (df.map (fun r' => (rowCells r').map printValue)) 11)
         (printValue r.Denied_amount),
       inferCell (colNumeric (df.map (fun r' => (rowCells r').map printValue)) 12)
         (printValue r.Denial_reason)]
      = rowCells r
    rw [normalizeRow_expected, rowCells]
    have e0 : inferCell (colNumeric (df.map (fun r' => (rowCells r').map printValue)) 0)
        (printValue r.ICD10_Code) = r.ICD10_Code :=
      reread_cell df (fun r' => r'.ICD10_Code) 0 (fun r' _ => rfl)
        (fun r' hr' => (hsplit r' hr').2.1) hc.1 r hr
    have e1 : inferCell (colNumeric (df.map (fun r' => (rowCells r').map printValue)) 1)
        (printValue r.CPT_Code) = r.CPT_Code :=
      reread_cell df (fun r' => r'.CPT_Code) 1 (fun r' _ => rfl)
        (fun r' hr' => (hsplit r' hr').2.2.1) hc.2.1 r hr
    have e2 : normDate (inferCell
        (colNumeric (df.map (fun r' => (rowCells r').map printValue)) 2)
        (printValue r.claim_date)) = r.claim_date :=
      reread_date df 2 (fun r' _ => rfl) (fun r' hr' => (hsplit r' hr').1) r hr
    have e3 : inferCell (colNumeric (df.map (fun r' => (rowCells r').map printValue)) 3)
        (printValue r.Patient_Age) = r.Patient_Age :=
      reread_cell df (fun r' => r'.Patient_Age) 3 (fun r' _ => rfl)
        (fun r' hr' => (hsplit r' hr').2.2.2.1) hc.2.2.1 r hr
    have e4 : inferCell (colNumeric (df.map (fun r' => (rowCells r').map printValue)) 4)
        (printValue r.Gender) = r.Gender :=
      reread_cell df (fun r' => r'.Gender) 4 (fun r' _ => rfl)
        (fun r' hr' => (hsplit r' hr').2.2.2.2.1) hc.2.2.2.1 r hr
    have e5 : inferCell (colNumeric (df.map (fun r' => (rowCells r').map printValue)) 5)
        (printValue r.Region) = r.Region :=
      reread_cell df (fun r' => r'.Region) 5 (fun r' _ => rfl)
        (fun r' hr' => (hsplit r' hr').2.2.2.2.2.1) hc.2.2.2.2.1 r hr
    have e6 : inferCell (colNumeric (df.map (fun r' => (rowCells r').map printValue)) 6)
        (printValue r.Provider_Specialty) = r.Provider_Specialty :=
      reread_cell df (fun r' => r'.Provider_Specialty) 6 (fun r' _ => rfl)
        (fun r' hr' => (hsplit r' hr').2.2.2.2.2.2.1) hc.2.2.2.2.2.1 r hr
    have e7 : inferCell (colNumeric (df.map (fun r' => (rowCells r').map printValue)) 7)
        (printValue r.Hospital_Type) = r.Hospital_Type :=
      reread_cell df (fun r' => r'.Hospital_Type) 7 (fun r' _ => rfl)
        (fun r' hr' => (hsplit r' hr').2.2.2.2.2.2.2.1) hc.2.2.2.2.2.2.1 r hr
    have e8 : inferCell (colNumeric (df.map (fun r' => (rowCells r').map printValue)) 8)
        (printValue r.Claim_Status) = r.Claim_Status :=
      reread_cell df (fun r' => r'.Claim_Status) 8 (fun r' _ => rfl)
        (fun r' hr' => (hsplit r' hr').2.2.2.2.2.2.2.2.1) hc.2.2.2.2.2.2.2.1 r hr
    have e9 : inferCell (colNumeric (df.map (fun r' => (rowCells r').map printValue)) 9)
        (printValue r.Claimed_Amount) = r.Claimed_Amount :=
      reread_cell df (fun r' => r'.Claimed_Amount) 9 (fun r' _ => rfl)
        (fun r' hr' => (hsplit r' hr').2.2.2.2.2.2.2.2.2.1) hc.2.2.2.2.2.2.2.2.1 r hr
    have e10 : inferCell (colNumeric (df.map (fun r' => (rowCells r').map printValue)) 10)
        (printValue r.Approved_Amount) = r.Approved_Amount :=
      reread_cell df (fun r' => r'.Approved_Amount) 10 (fun r' _ => rfl)
        (fun r' hr' => (hsplit r' hr').2.2.2.2.2.2.2.2.2.2.1) hc.2.2.2.2.2.2.2.2.2.1 r hr
    have e11 : inferCell (colNumeric (df.map (fun r' => (rowCells r').map printValue)) 11)
        (printValue r.Denied_amount) = r.Denied_amount :=
      reread_cell df (fun r' => r'.Denied_amount) 11 (fun r' _ => rfl)
        (fun r' hr' => (hsplit r' hr').2.2.2.2.2.2.2.2.2.2.2.1) hc.2.2.2.2.2.2.2.2.2.2.1 r hr
    have e12 : inferCell (colNumeric (df.map (fun r' => (rowCells r').map printValue)) 12)
        (printValue r.Denial_reason) = r.Denial_reason :=
      reread_cell df (fun r' => r'.Denial_reason) 12 (fun r' _ => rfl)
        (fun r' hr' => (hsplit r' hr').2.2.2.2.2.2.2.2.2.2.2.2) hc.2.2.2.2.2.2.2.2.2.2.2 r hr
    rw [e0, e1, e2, e3, e4, e5, e6, e7, e8, e9, e10, e11, e12]
  rw [hrows2]

/-- Claim C7 witness: the amended round trip evaluated on a concrete
one-row table whose denial reason needs quoting and escaping. -/
theorem export_roundtrip_witness :
    load_from_csv (to_csv [csvRow]) = .ok ⟨EXPECTED_COLUMNS, [csvRow].map rowCells⟩ :=
  export_roundtrip [csvRow] (by decide) (by decide)

set_option maxRecDepth 40000 in
/-- Claim C7 counterexample: the one-row filtered table whose `Region`
is the text "0123" — reachable by uploading a mixed Region column and
filtering the non-numeral rows away — does NOT re-parse to identical
values: once alone in its column the field is inferred numeric, and the
re-parsed table holds the NUMBER 123 where the exported table held the
TEXT "0123". -/
theorem export_reparse_changes_value :
    load_from_csv (to_csv [numRow])
      = .ok ⟨EXPECTED_COLUMNS, [rowCells { numRow with Region := .num 123 }]⟩
    ∧ load_from_csv (to_csv [numRow]) ≠ .ok ⟨EXPECTED_COLUMNS, [numRow].map rowCells⟩ := by
  constructor
  · decide
  · decide

end DenialApp

